import Mathlib

/-!
Verification of the odoo-helpdesk-bridge repository.

Shallow embedding of the core string processing, MIME classification,
dedup-ledger passes and SLA evaluation of the bridge, translated from the
Go sources (internal/imap/imap.go, internal/state/state.go, the odoo and
sla packages, and the main-package pass functions), together with proofs
and refutations of the specification claims.

Go strings are modelled as `List Char` (`Str`); machine integers as `Int`
with explicit saturation where the Go code saturates; external gateways
(IMAP, SMTP, Odoo RPC, Slack) as oracle functions supplied as parameters,
recording only the success or failure and the returned data that the
control flow inspects.
-/

namespace Bridge

/-- Go strings, modelled as lists of characters. -/
abbrev Str := List Char

/-- Whitespace as recognised by Go's `unicode.IsSpace` on the Latin-1 range
(`strings.TrimSpace` trims these from both ends). -/
def goIsSpace (c : Char) : Bool :=
  c = ' ' || c = '\t' || c = '\n' || c = '\x0b' || c = '\x0c' || c = '\r' ||
  c = '\x85' || c = '\xa0'

/-- `strings.TrimSpace`, left half: drop leading whitespace. -/
def trimL (s : Str) : Str := s.dropWhile goIsSpace

/-- `strings.TrimSpace`, right half: drop trailing whitespace. -/
def trimR (s : Str) : Str := (s.reverse.dropWhile goIsSpace).reverse

/-- `strings.TrimSpace`. -/
def trim (s : Str) : Str := trimR (trimL s)

/-- `strings.Split(s, "\n")`: split into lines at every newline
(the separators are not kept; `Split` of the empty string is `[""]`). -/
def splitNl : Str → List Str
  | [] => [[]]
  | c :: cs =>
    match splitNl cs with
    | [] => [[]]
    | l :: ls => if c = '\n' then [] :: l :: ls else (c :: l) :: ls

/-- `strings.Join(out, "\n")`. -/
def nlJoin : List Str → Str
  | [] => []
  | [l] => l
  | l :: l2 :: ls => l ++ '\n' :: nlJoin (l2 :: ls)

/-- ASCII lower-casing of one character (`strings.ToLower`; the Go version
also folds non-ASCII letters, which the break patterns below never need
since the comparison strings are already lower-case). -/
def lowerStr (s : Str) : Str := s.map Char.toLower

/-- `strings.Contains(hay, needle)`. -/
def strContains (needle hay : Str) : Bool :=
  hay.tails.any (fun t => needle.isPrefixOf t)

/-- `strings.HasPrefix(s, ">")`: does the string start with `>`. -/
def startsWithGt (s : Str) : Bool :=
  match s with
  | [] => false
  | c :: _ => c = '>'

/-- The `breakPatterns` table of `CleanBody` (imap.go): lower-cased markers
that start quoted/forwarded content. -/
def breakPatterns : List Str :=
  [ "original message".toList,
    "původní zpráva".toList,
    "---------- forwarded message".toList,
    "---------- přeposlaná zpráva".toList,
    "on wrote:".toList,
    "napsal:".toList,
    "from:".toList,
    "od:".toList,
    "sent:".toList,
    "odesláno:".toList,
    "-------- original message --------".toList,
    "-------- původní zpráva --------".toList ]

/-- Does a (lower-cased, trimmed) line contain one of the break patterns. -/
def hasBrk (l : Str) : Bool := breakPatterns.any (fun p => strContains p l)

/-- The line loop of `CleanBody` (imap.go): skip lines whose trimmed form
starts with `>`, stop at the first line containing a break pattern,
keep the rest (the original, untrimmed lines are kept). -/
def stripLines : List Str → List Str
  | [] => []
  | l :: ls =>
    let t := trim l
    if startsWithGt t then stripLines ls
    else if hasBrk (lowerStr t) then []
    else l :: stripLines ls

/-- `CleanBody` (imap.go): strip quoted reply content; if stripping leaves
nothing but the input had content, return the trimmed input instead. -/
def CleanBody (b : Str) : Str :=
  let s := trim (nlJoin (stripLines (splitNl b)))
  if s = [] ∧ trim b ≠ [] then trim b else s

example : CleanBody "hello\n> quoted\nworld".toList = "hello\nworld".toList := by decide
example : CleanBody "> quoted only".toList = "> quoted only".toList := by decide
example : CleanBody "> quoted only ".toList = "> quoted only".toList := by decide
example : CleanBody "hi\n--------原 Original Message --------\nold".toList = "hi".toList := by
  decide
example : CleanBody "".toList = "".toList := by decide

/-! ### Generic `dropWhile` facts -/

theorem dropWhile_append_all {p : Char → Bool} {a l : Str}
    (h : ∀ c ∈ a, p c = true) : (a ++ l).dropWhile p = l.dropWhile p := by
  induction a with
  | nil => rfl
  | cons c a ih =>
    have hc : p c = true := h c (List.mem_cons_self ..)
    simp only [List.cons_append, List.dropWhile_cons_of_pos hc]
    exact ih (fun d hd => h d (List.mem_cons_of_mem _ hd))

theorem dropWhile_decomp (p : Char → Bool) (l : Str) :
    ∃ a, l = a ++ l.dropWhile p ∧ ∀ c ∈ a, p c = true := by
  induction l with
  | nil => exact ⟨[], rfl, by simp⟩
  | cons c l ih =>
    by_cases hc : p c = true
    · obtain ⟨a, ha, hall⟩ := ih
      refine ⟨c :: a, ?_, ?_⟩
      · simp [List.dropWhile_cons_of_pos hc, ← ha]
      · intro d hd
        rcases List.mem_cons.1 hd with h | h
        · exact h ▸ hc
        · exact hall d h
    · exact ⟨[], by simp [List.dropWhile_cons_of_neg hc], by simp⟩

theorem dropWhile_head_false {p : Char → Bool} {l r : Str} {c : Char}
    (h : l.dropWhile p = c :: r) : p c = false := by
  induction l with
  | nil => simp at h
  | cons d l ih =>
    by_cases hd : p d = true
    · rw [List.dropWhile_cons_of_pos hd] at h; exact ih h
    · rw [List.dropWhile_cons_of_neg hd] at h
      cases h
      simpa using hd

theorem dropWhile_idem (p : Char → Bool) (l : Str) :
    (l.dropWhile p).dropWhile p = l.dropWhile p := by
  cases h : l.dropWhile p with
  | nil => rfl
  | cons c r => exact List.dropWhile_cons_of_neg (by simp [dropWhile_head_false h])

theorem dropWhile_nil_iff {p : Char → Bool} {l : Str} :
    l.dropWhile p = [] ↔ ∀ c ∈ l, p c = true := by
  induction l with
  | nil => simp
  | cons c l ih =>
    by_cases hc : p c = true
    · simp [List.dropWhile_cons_of_pos hc, ih, hc]
    · simp only [List.dropWhile_cons_of_neg hc]
      constructor
      · intro h; cases h
      · intro h; exact absurd (h c (List.mem_cons_self ..)) hc

/-! ### `trim` facts -/

theorem trimL_idem (s : Str) : trimL (trimL s) = trimL s := dropWhile_idem _ _

theorem trimR_idem (s : Str) : trimR (trimR s) = trimR s := by
  unfold trimR
  rw [List.reverse_reverse, dropWhile_idem]

theorem trimL_nil_iff {s : Str} : trimL s = [] ↔ ∀ c ∈ s, goIsSpace c = true :=
  dropWhile_nil_iff

theorem trimR_nil_iff {s : Str} : trimR s = [] ↔ ∀ c ∈ s, goIsSpace c = true := by
  unfold trimR
  rw [List.reverse_eq_nil_iff, dropWhile_nil_iff]
  constructor
  · intro h c hc; exact h c (List.mem_reverse.2 hc)
  · intro h c hc; exact h c (List.mem_reverse.1 hc)

theorem trimR_decomp (s : Str) :
    ∃ u, s = trimR s ++ u ∧ ∀ c ∈ u, goIsSpace c = true := by
  obtain ⟨a, ha, hall⟩ := dropWhile_decomp goIsSpace s.reverse
  refine ⟨a.reverse, ?_, ?_⟩
  · have := congrArg List.reverse ha
    rw [List.reverse_reverse, List.reverse_append] at this
    simpa [trimR] using this
  · intro c hc; exact hall c (List.mem_reverse.1 hc)

theorem trimL_decomp (s : Str) :
    ∃ a, s = a ++ trimL s ∧ ∀ c ∈ a, goIsSpace c = true :=
  dropWhile_decomp goIsSpace s

theorem trimR_last {s l : Str} (h : trimR s = l) (hne : l ≠ []) :
    ∃ r d, l = r ++ [d] ∧ goIsSpace d = false := by
  unfold trimR at h
  cases hd : s.reverse.dropWhile goIsSpace with
  | nil => rw [hd] at h; simp at h; exact absurd h hne
  | cons c t =>
    refine ⟨t.reverse, c, ?_, dropWhile_head_false hd⟩
    rw [hd] at h
    simp at h
    simp [← h]

theorem trimLR_comm (s : Str) : trimL (trimR s) = trimR (trimL s) := by
  cases h : trimL s with
  | nil =>
    have hall : ∀ c ∈ s, goIsSpace c = true := trimL_nil_iff.1 h
    have h2 : trimR s = [] := trimR_nil_iff.2 hall
    rw [h2]
    simp [trimL, trimR]
  | cons c r =>
    have hc : goIsSpace c = false := dropWhile_head_false h
    obtain ⟨a, ha, haws⟩ := trimL_decomp s
    rw [h] at ha
    -- s = a ++ c :: r with a all whitespace and c not whitespace
    cases h2 : trimR (c :: r) with
    | nil =>
      have := trimR_nil_iff.1 h2 c (List.mem_cons_self ..)
      rw [hc] at this; cases this
    | cons c' r' =>
      -- trimR (c :: r) is a prefix of c :: r, hence starts with c
      obtain ⟨u, hu, huws⟩ := trimR_decomp (c :: r)
      rw [h2, List.cons_append] at hu
      injection hu with hc1 hc2
      subst hc1
      -- the last character of c :: r' is not whitespace
      obtain ⟨rr, d, hrr, hd⟩ := trimR_last h2 (by simp)
      -- compute trimR s
      have hrev : (c :: r').reverse = d :: rr.reverse := by rw [hrr]; simp
      have htr : trimR s = a ++ (c :: r') := by
        have hs : s = a ++ (c :: r') ++ u := by rw [ha, hc2]; simp
        unfold trimR
        rw [hs, List.reverse_append, List.reverse_append]
        rw [dropWhile_append_all (fun x hx => huws x (List.mem_reverse.1 hx))]
        rw [hrev, List.cons_append, List.dropWhile_cons_of_neg (by simp [hd])]
        rw [← List.cons_append, ← hrev, List.reverse_append,
          List.reverse_reverse, List.reverse_reverse]
      rw [htr]
      unfold trimL
      rw [dropWhile_append_all haws, List.dropWhile_cons_of_neg (by simp [hc])]

theorem trim_trimL (s : Str) : trim (trimL s) = trim s := by
  unfold trim; rw [trimL_idem]

theorem trim_trimR (s : Str) : trim (trimR s) = trim s := by
  unfold trim
  rw [trimLR_comm, trimR_idem]

theorem trim_idem (s : Str) : trim (trim s) = trim s := by
  show trim (trimR (trimL s)) = trim s
  rw [trim_trimR, trim_trimL]

theorem trim_nil_iff {s : Str} : trim s = [] ↔ ∀ c ∈ s, goIsSpace c = true := by
  unfold trim
  rw [trimR_nil_iff]
  constructor
  · intro h c hc
    obtain ⟨a, ha, haws⟩ := trimL_decomp s
    rw [ha] at hc
    rcases List.mem_append.1 hc with h' | h'
    · exact haws c h'
    · exact h c h'
  · intro h c hc
    obtain ⟨a, ha, _⟩ := trimL_decomp s
    exact h c (ha ▸ List.mem_append_right a hc)

/-! ### `splitNl` / `nlJoin` facts -/

theorem splitNl_ne_nil (s : Str) : splitNl s ≠ [] := by
  cases s with
  | nil => simp [splitNl]
  | cons c cs =>
    unfold splitNl
    cases splitNl cs with
    | nil => simp
    | cons l ls =>
      by_cases hc : c = '\n' <;> simp [hc]

theorem nlJoin_splitNl (s : Str) : nlJoin (splitNl s) = s := by
  induction s with
  | nil => rfl
  | cons c cs ih =>
    unfold splitNl
    cases h : splitNl cs with
    | nil => exact absurd h (splitNl_ne_nil cs)
    | cons l ls =>
      rw [h] at ih
      by_cases hc : c = '\n'
      · subst hc
        simp only [if_pos rfl]
        show '\n' :: nlJoin (l :: ls) = '\n' :: cs
        rw [ih]
      · simp only [if_neg hc]
        cases ls with
        | nil => show (c :: l) = c :: cs; rw [show nlJoin [l] = l from rfl] at ih; rw [ih]
        | cons l2 ls2 =>
          show (c :: l) ++ '\n' :: nlJoin (l2 :: ls2) = c :: cs
          rw [List.cons_append]
          have : l ++ '\n' :: nlJoin (l2 :: ls2) = cs := ih
          rw [this]

theorem splitNl_cons_eq {cs : Str} {l : Str} {ls : List Str} (c : Char)
    (h : splitNl cs = l :: ls) :
    splitNl (c :: cs) = if c = '\n' then [] :: l :: ls else (c :: l) :: ls := by
  show (match splitNl cs with
        | [] => [[]]
        | l :: ls => if c = '\n' then [] :: l :: ls else (c :: l) :: ls) = _
  rw [h]

theorem splitNl_no_newline {s : Str} : ∀ l ∈ splitNl s, ∀ c ∈ l, c ≠ '\n' := by
  induction s with
  | nil => intro l hl c hc; simp [splitNl] at hl; subst hl; cases hc
  | cons a cs ih =>
    intro l hl c hc
    cases h : splitNl cs with
    | nil => exact absurd h (splitNl_ne_nil cs)
    | cons l0 ls =>
      rw [splitNl_cons_eq a h] at hl
      by_cases ha : a = '\n'
      · rw [if_pos ha] at hl
        rcases List.mem_cons.1 hl with h1 | h1
        · subst h1; cases hc
        · exact ih l (h ▸ h1) c hc
      · rw [if_neg ha] at hl
        rcases List.mem_cons.1 hl with h1 | h1
        · subst h1
          rcases List.mem_cons.1 hc with h2 | h2
          · subst h2; exact ha
          · exact ih l0 (h ▸ List.mem_cons_self ..) c h2
        · exact ih l (h ▸ List.mem_cons_of_mem _ h1) c hc

theorem splitNl_single {l : Str} (h : ∀ c ∈ l, c ≠ '\n') : splitNl l = [l] := by
  induction l with
  | nil => rfl
  | cons c cs ih =>
    rw [splitNl_cons_eq c (ih (fun d hd => h d (List.mem_cons_of_mem _ hd)))]
    rw [if_neg (h c (List.mem_cons_self ..))]

theorem splitNl_append_nl {l rest : Str} (h : ∀ c ∈ l, c ≠ '\n') :
    splitNl (l ++ '\n' :: rest) = l :: splitNl rest := by
  induction l with
  | nil =>
    show splitNl ('\n' :: rest) = [] :: splitNl rest
    cases hr : splitNl rest with
    | nil => exact absurd hr (splitNl_ne_nil rest)
    | cons r rs => rw [splitNl_cons_eq '\n' hr, if_pos rfl]
  | cons c cs ih =>
    have hc : c ≠ '\n' := h c (List.mem_cons_self ..)
    show splitNl (c :: (cs ++ '\n' :: rest)) = (c :: cs) :: splitNl rest
    cases hr : splitNl rest with
    | nil => exact absurd hr (splitNl_ne_nil rest)
    | cons r rs =>
      have h2 : splitNl (cs ++ '\n' :: rest) = cs :: r :: rs := by
        rw [ih (fun d hd => h d (List.mem_cons_of_mem _ hd)), hr]
      rw [splitNl_cons_eq c h2, if_neg hc]

theorem splitNl_nlJoin {ls : List Str} (hne : ls ≠ [])
    (h : ∀ l ∈ ls, ∀ c ∈ l, c ≠ '\n') : splitNl (nlJoin ls) = ls := by
  induction ls with
  | nil => exact absurd rfl hne
  | cons l ls ih =>
    cases ls with
    | nil => exact splitNl_single (h l (List.mem_cons_self ..))
    | cons l2 ls2 =>
      show splitNl (l ++ '\n' :: nlJoin (l2 :: ls2)) = l :: l2 :: ls2
      rw [splitNl_append_nl (h l (List.mem_cons_self ..))]
      rw [ih (by simp) (fun x hx c hc => h x (List.mem_cons_of_mem _ hx) c hc)]

theorem mem_nlJoin_of_mem {ls : List Str} {l : Str} {c : Char}
    (hl : l ∈ ls) (hc : c ∈ l) : c ∈ nlJoin ls := by
  induction ls with
  | nil => cases hl
  | cons x ls ih =>
    cases ls with
    | nil =>
      rcases List.mem_cons.1 hl with h | h
      · subst h; exact hc
      · cases h
    | cons y ls2 =>
      show c ∈ x ++ '\n' :: nlJoin (y :: ls2)
      rcases List.mem_cons.1 hl with h | h
      · subst h; exact List.mem_append_left _ hc
      · exact List.mem_append_right _ (List.mem_cons_of_mem _ (ih h))

theorem mem_of_mem_nlJoin {ls : List Str} {c : Char} (hc : c ∈ nlJoin ls) :
    c = '\n' ∨ ∃ l ∈ ls, c ∈ l := by
  induction ls with
  | nil => cases hc
  | cons x ls ih =>
    cases ls with
    | nil => exact Or.inr ⟨x, List.mem_cons_self .., hc⟩
    | cons y ls2 =>
      rcases List.mem_append.1 hc with h | h
      · exact Or.inr ⟨x, List.mem_cons_self .., h⟩
      · rcases List.mem_cons.1 h with h2 | h2
        · exact Or.inl h2
        · rcases ih h2 with h3 | ⟨l, hl, hcl⟩
          · exact Or.inl h3
          · exact Or.inr ⟨l, List.mem_cons_of_mem _ hl, hcl⟩

/-- A joined line list trims to nothing exactly when every line does. -/
theorem trim_nlJoin_nil_iff {ls : List Str} :
    trim (nlJoin ls) = [] ↔ ∀ l ∈ ls, trim l = [] := by
  rw [trim_nil_iff]
  constructor
  · intro h l hl
    rw [trim_nil_iff]
    intro c hc
    exact h c (mem_nlJoin_of_mem hl hc)
  · intro h c hc
    rcases mem_of_mem_nlJoin hc with h1 | ⟨l, hl, hcl⟩
    · subst h1; rfl
    · exact (trim_nil_iff.1 (h l hl)) c hcl

/-! ### `splitNl` and `reverse` -/

/-- Apply a function to the last element of a list. -/
def modLast (f : Str → Str) : List Str → List Str
  | [] => []
  | [l] => [f l]
  | l :: l2 :: ls => l :: modLast f (l2 :: ls)

theorem modLast_append_single (f : Str → Str) (xs : List Str) (y : Str) :
    modLast f (xs ++ [y]) = xs ++ [f y] := by
  induction xs with
  | nil => rfl
  | cons x xs ih =>
    cases xs with
    | nil => rfl
    | cons x2 xs2 =>
      show x :: modLast f ((x2 :: xs2) ++ [y]) = x :: ((x2 :: xs2) ++ [f y])
      rw [ih]

theorem splitNl_append_single (xs : Str) (c : Char) :
    splitNl (xs ++ [c]) =
      if c = '\n' then splitNl xs ++ [[]]
      else modLast (fun l => l ++ [c]) (splitNl xs) := by
  induction xs with
  | nil =>
    by_cases hc : c = '\n'
    · subst hc; rfl
    · simp only [List.nil_append, if_neg hc]
      show splitNl [c] = [[c]]
      rw [splitNl_cons_eq c (show splitNl [] = [[]] from rfl), if_neg hc]
  | cons x xs ih =>
    cases h : splitNl xs with
    | nil => exact absurd h (splitNl_ne_nil xs)
    | cons l ls =>
      rw [h] at ih
      have hxc : (x :: xs) ++ [c] = x :: (xs ++ [c]) := rfl
      by_cases hc : c = '\n'
      · subst hc
        simp only [if_pos rfl] at ih ⊢
        have h1 : splitNl (xs ++ ['\n']) = l :: (ls ++ [[]]) := by rw [ih]; rfl
        rw [hxc, splitNl_cons_eq x h1, splitNl_cons_eq x h]
        by_cases hx : x = '\n' <;> simp [hx]
      · simp only [if_neg hc] at ih ⊢
        cases ls with
        | nil =>
          have h1 : splitNl (xs ++ [c]) = [l ++ [c]] := by rw [ih]; rfl
          rw [hxc, splitNl_cons_eq x h1, splitNl_cons_eq x h]
          by_cases hx : x = '\n' <;> simp [hx, modLast]
        | cons l2 ls2 =>
          have h1 : splitNl (xs ++ [c]) =
              l :: modLast (fun t => t ++ [c]) (l2 :: ls2) := by rw [ih]; rfl
          rw [hxc, splitNl_cons_eq x h1, splitNl_cons_eq x h]
          by_cases hx : x = '\n' <;> simp [hx, modLast]

theorem splitNl_reverse (u : Str) :
    splitNl u.reverse = ((splitNl u).map List.reverse).reverse := by
  induction u with
  | nil => rfl
  | cons c cs ih =>
    rw [List.reverse_cons, splitNl_append_single, ih]
    cases h : splitNl cs with
    | nil => exact absurd h (splitNl_ne_nil cs)
    | cons l ls =>
      rw [splitNl_cons_eq c h]
      by_cases hc : c = '\n'
      · simp [hc]
      · simp [hc, modLast_append_single]

/-! ### Line structure of a trimmed string -/

/-- Left-trimming a string drops leading whitespace-only lines and
left-trims the first surviving line. -/
theorem splitNl_trimL (u : Str) :
    (trimL u = [] ∧ ∀ l ∈ splitNl u, ∀ c ∈ l, goIsSpace c = true) ∨
    ∃ pre h t, splitNl u = pre ++ h :: t ∧
      (∀ l ∈ pre, ∀ c ∈ l, goIsSpace c = true) ∧
      splitNl (trimL u) = trimL h :: t := by
  induction u with
  | nil =>
    left
    refine ⟨rfl, ?_⟩
    intro l hl c hc
    simp [splitNl] at hl
    subst hl; cases hc
  | cons c cs ih =>
    by_cases hc : goIsSpace c = true
    · have htl : trimL (c :: cs) = trimL cs := List.dropWhile_cons_of_pos hc
      cases hsp : splitNl cs with
      | nil => exact absurd hsp (splitNl_ne_nil cs)
      | cons l ls =>
        have hsu := splitNl_cons_eq c hsp
        rcases ih with ⟨h1, h2⟩ | ⟨pre, h, t, e1, e2, e3⟩
        · left
          refine ⟨by rw [htl, h1], ?_⟩
          intro l' hl' c' hc'
          by_cases hnl : c = '\n'
          · rw [if_pos hnl] at hsu
            rw [hsu] at hl'
            rcases List.mem_cons.1 hl' with h3 | h3
            · subst h3; cases hc'
            · exact h2 l' (hsp ▸ h3) c' hc'
          · rw [if_neg hnl] at hsu
            rw [hsu] at hl'
            rcases List.mem_cons.1 hl' with h3 | h3
            · subst h3
              rcases List.mem_cons.1 hc' with h4 | h4
              · subst h4; exact hc
              · exact h2 l (hsp ▸ List.mem_cons_self ..) c' h4
            · exact h2 l' (hsp ▸ List.mem_cons_of_mem _ h3) c' hc'
        · rw [hsp] at e1
          by_cases hnl : c = '\n'
          · rw [if_pos hnl] at hsu
            right
            refine ⟨[] :: pre, h, t, ?_, ?_, by rw [htl]; exact e3⟩
            · rw [hsu, e1]; rfl
            · intro l' hl' c' hc'
              rcases List.mem_cons.1 hl' with h3 | h3
              · subst h3; cases hc'
              · exact e2 l' h3 c' hc'
          · rw [if_neg hnl] at hsu
            cases pre with
            | nil =>
              right
              have hlh : l = h := by simpa using congrArg (fun x => x.headI) e1
              have hlt : ls = t := by simpa using congrArg List.tail e1
              refine ⟨[], c :: h, t, ?_, by simp, ?_⟩
              · rw [hsu, hlh, hlt]; rfl
              · rw [htl, e3]
                simp only [trimL, List.dropWhile_cons_of_pos hc]
            | cons p ps =>
              right
              have hlp : l = p := by simpa using congrArg (fun x => x.headI) e1
              have hlt : ls = ps ++ h :: t := by simpa using congrArg List.tail e1
              refine ⟨(c :: p) :: ps, h, t, ?_, ?_, by rw [htl]; exact e3⟩
              · rw [hsu, hlp, hlt]; rfl
              · intro l' hl' c' hc'
                rcases List.mem_cons.1 hl' with h3 | h3
                · subst h3
                  rcases List.mem_cons.1 hc' with h4 | h4
                  · subst h4; exact hc
                  · exact e2 p (List.mem_cons_self ..) c' h4
                · exact e2 l' (List.mem_cons_of_mem _ h3) c' hc'
    · right
      have hc' : ¬c = '\n' := by
        intro h; subst h; simp [goIsSpace] at hc
      have htl : trimL (c :: cs) = c :: cs := List.dropWhile_cons_of_neg hc
      cases hsp : splitNl cs with
      | nil => exact absurd hsp (splitNl_ne_nil cs)
      | cons l ls =>
        have hsu := splitNl_cons_eq c hsp
        rw [if_neg hc'] at hsu
        refine ⟨[], c :: l, ls, by rw [hsu]; rfl, by simp, ?_⟩
        rw [htl, hsu]
        simp only [trimL, List.dropWhile_cons_of_neg hc]

/-- Right-trimming a string drops trailing whitespace-only lines and
right-trims the last surviving line. -/
theorem splitNl_trimR (v : Str) :
    (trimR v = [] ∧ ∀ l ∈ splitNl v, ∀ c ∈ l, goIsSpace c = true) ∨
    ∃ A x P, splitNl v = A ++ x :: P ∧
      (∀ l ∈ P, ∀ c ∈ l, goIsSpace c = true) ∧
      splitNl (trimR v) = A ++ [trimR x] := by
  have hrv : trimR v = (trimL v.reverse).reverse := rfl
  rcases splitNl_trimL v.reverse with ⟨h1, h2⟩ | ⟨pre, h, t, e1, e2, e3⟩
  · left
    refine ⟨by rw [hrv, h1]; rfl, ?_⟩
    intro l hl c hc
    have hml : l.reverse ∈ splitNl v.reverse := by
      rw [splitNl_reverse]
      exact List.mem_reverse.2 (List.mem_map_of_mem _ hl)
    exact h2 l.reverse hml c (List.mem_reverse.2 hc)
  · right
    rw [splitNl_reverse] at e1
    have e1' : (splitNl v).map List.reverse = t.reverse ++ [h] ++ pre.reverse := by
      have := congrArg List.reverse e1
      rw [List.reverse_reverse] at this
      rw [this]
      simp
    have hsv : splitNl v =
        (t.map List.reverse).reverse ++ h.reverse :: (pre.map List.reverse).reverse := by
      have := congrArg (List.map List.reverse) e1'
      rw [List.map_map, List.map_id'' (by simp)] at this
      rw [this]
      simp
    refine ⟨(t.map List.reverse).reverse, h.reverse, (pre.map List.reverse).reverse,
      hsv, ?_, ?_⟩
    · intro l hl c hc
      have : l.reverse ∈ pre := by
        rcases List.mem_map.1 (List.mem_reverse.1 hl) with ⟨p, hp, hpe⟩
        rw [← hpe, List.reverse_reverse]
        exact hp
      exact e2 l.reverse this c (List.mem_reverse.2 hc)
    · rw [hrv, splitNl_reverse, e3]
      have : trimR h.reverse = (trimL h).reverse := by
        unfold trimR trimL
        rw [List.reverse_reverse]
      rw [this]
      simp

/-- Trimming a string: the lines of the trimmed string agree, up to
per-line trimming, with a contiguous block of the original lines whose
dropped margins are whitespace-only lines. -/
theorem splitNl_trim (u : Str) :
    (trim u = [] ∧ ∀ l ∈ splitNl u, trim l = []) ∨
    ∃ pre mid post, splitNl u = pre ++ mid ++ post ∧
      (∀ l ∈ pre, trim l = []) ∧ (∀ l ∈ post, trim l = []) ∧
      (splitNl (trim u)).map trim = mid.map trim := by
  rcases splitNl_trimL u with ⟨h1, h2⟩ | ⟨pre, h, t, e1, e2, e3⟩
  · left
    refine ⟨by unfold trim; rw [h1]; rfl, ?_⟩
    intro l hl
    exact trim_nil_iff.2 (h2 l hl)
  · rcases splitNl_trimR (trimL u) with ⟨g1, g2⟩ | ⟨A, x, P, f1, f2, f3⟩
    · -- the whole string is whitespace
      left
      have htu : trim u = [] := by unfold trim; exact g1
      refine ⟨htu, ?_⟩
      have hall : ∀ l ∈ splitNl u, ∀ c ∈ l, goIsSpace c = true := by
        intro l hl c hc
        rw [e1] at hl
        rcases List.mem_append.1 hl with h3 | h3
        · exact e2 l h3 c hc
        · have hws : ∀ l' ∈ trimL h :: t, ∀ c' ∈ l', goIsSpace c' = true := by
            intro l' hl' c' hc'
            exact g2 l' (e3 ▸ hl') c' hc'
          rcases List.mem_cons.1 h3 with h4 | h4
          · subst h4
            obtain ⟨a, ha, haws⟩ := trimL_decomp l
            rw [ha] at hc
            rcases List.mem_append.1 hc with h5 | h5
            · exact haws c h5
            · exact hws (trimL l) (List.mem_cons_self ..) c h5
          · exact hws l (List.mem_cons_of_mem _ h4) c hc
      intro l hl
      exact trim_nil_iff.2 (hall l hl)
    · right
      -- splitNl (trimL u) = trimL h :: t = A ++ x :: P
      rw [e3] at f1
      have htrim : splitNl (trim u) = A ++ [trimR x] := by
        unfold trim; exact f3
      cases A with
      | nil =>
        -- trimL h = x, t = P
        have hx : trimL h = x := by simpa using congrArg (fun z => z.headI) f1
        have ht : t = P := by simpa using congrArg List.tail f1
        refine ⟨pre, [h], t, by rw [e1]; simp, ?_, ?_, ?_⟩
        · intro l hl; exact trim_nil_iff.2 (e2 l hl)
        · intro l hl; exact trim_nil_iff.2 (f2 l (ht ▸ hl))
        · rw [htrim]
          simp only [List.nil_append, List.map_cons, List.map_nil]
          rw [trim_trimR, ← hx, trim_trimL]
      | cons a0 A' =>
        have hx : trimL h = a0 := by simpa using congrArg (fun z => z.headI) f1
        have ht : t = A' ++ x :: P := by simpa using congrArg List.tail f1
        refine ⟨pre, h :: A' ++ [x], P, ?_, ?_, ?_, ?_⟩
        · rw [e1, ht]; simp
        · intro l hl; exact trim_nil_iff.2 (e2 l hl)
        · intro l hl; exact trim_nil_iff.2 (f2 l hl)
        · rw [htrim]
          simp only [List.cons_append, List.map_cons, List.map_append]
          rw [trim_trimR, ← hx, trim_trimL]

/-! ### `stripLines` facts -/

theorem stripLines_cons (l : Str) (ls : List Str) :
    stripLines (l :: ls) =
      if startsWithGt (trim l) then stripLines ls
      else if hasBrk (lowerStr (trim l)) then []
      else l :: stripLines ls := rfl

theorem hasBrk_nil : hasBrk (lowerStr []) = false := by decide

theorem stripLines_sub {ls : List Str} : ∀ l ∈ stripLines ls, l ∈ ls := by
  induction ls with
  | nil => intro l hl; cases hl
  | cons x ls ih =>
    intro l hl
    rw [stripLines_cons] at hl
    by_cases h1 : startsWithGt (trim x) = true
    · rw [if_pos h1] at hl
      exact List.mem_cons_of_mem _ (ih l hl)
    · rw [if_neg h1] at hl
      by_cases h2 : hasBrk (lowerStr (trim x)) = true
      · rw [if_pos h2] at hl; cases hl
      · rw [if_neg h2] at hl
        rcases List.mem_cons.1 hl with h3 | h3
        · exact h3 ▸ List.mem_cons_self ..
        · exact List.mem_cons_of_mem _ (ih l h3)

theorem stripLines_kept {ls : List Str} :
    ∀ l ∈ stripLines ls,
      startsWithGt (trim l) = false ∧ hasBrk (lowerStr (trim l)) = false := by
  induction ls with
  | nil => intro l hl; cases hl
  | cons x ls ih =>
    intro l hl
    rw [stripLines_cons] at hl
    by_cases h1 : startsWithGt (trim x) = true
    · rw [if_pos h1] at hl; exact ih l hl
    · rw [if_neg h1] at hl
      by_cases h2 : hasBrk (lowerStr (trim x)) = true
      · rw [if_pos h2] at hl; cases hl
      · rw [if_neg h2] at hl
        rcases List.mem_cons.1 hl with h3 | h3
        · subst h3
          exact ⟨by simpa using h1, by simpa using h2⟩
        · exact ih l h3

theorem stripLines_all_kept {ls : List Str}
    (h : ∀ l ∈ ls,
      startsWithGt (trim l) = false ∧ hasBrk (lowerStr (trim l)) = false) :
    stripLines ls = ls := by
  induction ls with
  | nil => rfl
  | cons x ls ih =>
    obtain ⟨h1, h2⟩ := h x (List.mem_cons_self ..)
    rw [stripLines_cons, if_neg (by simp [h1]), if_neg (by simp [h2])]
    rw [ih (fun l hl => h l (List.mem_cons_of_mem _ hl))]

theorem stripLines_ws_append {pre rest : List Str} (h : ∀ l ∈ pre, trim l = []) :
    stripLines (pre ++ rest) = pre ++ stripLines rest := by
  induction pre with
  | nil => rfl
  | cons p ps ih =>
    have hp : trim p = [] := h p (List.mem_cons_self ..)
    rw [List.cons_append, stripLines_cons, hp]
    rw [if_neg (by simp [startsWithGt]), if_neg (by simp [hasBrk_nil])]
    rw [ih (fun l hl => h l (List.mem_cons_of_mem _ hl))]
    rfl

theorem stripLines_mem_append {xs ys : List Str} :
    ∀ l ∈ stripLines xs, l ∈ stripLines (xs ++ ys) := by
  induction xs with
  | nil => intro l hl; cases hl
  | cons x xs ih =>
    intro l hl
    rw [stripLines_cons] at hl
    rw [List.cons_append, stripLines_cons]
    by_cases h1 : startsWithGt (trim x) = true
    · rw [if_pos h1] at hl ⊢; exact ih l hl
    · rw [if_neg h1] at hl ⊢
      by_cases h2 : hasBrk (lowerStr (trim x)) = true
      · rw [if_pos h2] at hl; cases hl
      · rw [if_neg h2] at hl ⊢
        rcases List.mem_cons.1 hl with h3 | h3
        · exact h3 ▸ List.mem_cons_self ..
        · exact List.mem_cons_of_mem _ (ih l h3)

theorem stripLines_congr_trim {ls1 ls2 : List Str}
    (h : ls1.map trim = ls2.map trim) :
    (stripLines ls1).map trim = (stripLines ls2).map trim := by
  induction ls1 generalizing ls2 with
  | nil =>
    cases ls2 with
    | nil => rfl
    | cons y ys => simp at h
  | cons x xs ih =>
    cases ls2 with
    | nil => simp at h
    | cons y ys =>
      simp only [List.map_cons, List.cons.injEq] at h
      obtain ⟨hxy, htail⟩ := h
      rw [stripLines_cons, stripLines_cons, ← hxy]
      by_cases h1 : startsWithGt (trim x) = true
      · rw [if_pos h1, if_pos h1]; exact ih htail
      · rw [if_neg h1, if_neg h1]
        by_cases h2 : hasBrk (lowerStr (trim x)) = true
        · rw [if_pos h2, if_pos h2]
        · rw [if_neg h2, if_neg h2]
          simp only [List.map_cons, hxy]
          rw [ih htail]

/-! ### `CleanBody` idempotence -/

/-- When quote-stripping leaves only whitespace, it also leaves only
whitespace on the trimmed input. -/
theorem stripEmpty_trim {b : Str}
    (h : trim (nlJoin (stripLines (splitNl b))) = []) :
    trim (nlJoin (stripLines (splitNl (trim b)))) = [] := by
  rw [trim_nlJoin_nil_iff] at h ⊢
  rcases splitNl_trim b with ⟨h1, _⟩ | ⟨pre, mid, post, g1, g2, _, g4⟩
  · rw [h1]
    intro l hl
    have hsn : stripLines (splitNl ([] : Str)) = [[]] := by decide
    rw [hsn] at hl
    rcases List.mem_cons.1 hl with h2 | h2
    · subst h2; rfl
    · cases h2
  · have hpre : stripLines (splitNl b) = pre ++ stripLines (mid ++ post) := by
      rw [g1, List.append_assoc, stripLines_ws_append g2]
    have hmp : ∀ l ∈ stripLines mid, trim l = [] := by
      intro l hl
      exact h l (by rw [hpre]; exact List.mem_append_right _ (stripLines_mem_append l hl))
    have hcongr := stripLines_congr_trim g4
    intro l' hl'
    have hmem : trim l' ∈ (stripLines (splitNl (trim b))).map trim :=
      List.mem_map_of_mem _ hl'
    rw [hcongr] at hmem
    obtain ⟨y, hy, hye⟩ := List.mem_map.1 hmem
    rw [← hye]
    exact hmp y hy

/-- The result of a successful strip is a fixed point of `CleanBody`. -/
theorem cleanBody_fixed (b : Str)
    (hs : trim (nlJoin (stripLines (splitNl b))) ≠ []) :
    CleanBody (trim (nlJoin (stripLines (splitNl b)))) =
      trim (nlJoin (stripLines (splitNl b))) := by
  set out := stripLines (splitNl b) with hout_def
  set s := trim (nlJoin out) with hs_def
  have hout : out ≠ [] := by
    intro h
    apply hs
    rw [hs_def, h]
    rfl
  have hnonl : ∀ l ∈ out, ∀ c ∈ l, c ≠ '\n' :=
    fun l hl => splitNl_no_newline l (stripLines_sub l hl)
  have hjs : splitNl (nlJoin out) = out := splitNl_nlJoin hout hnonl
  rcases splitNl_trim (nlJoin out) with ⟨h1, _⟩ | ⟨pre, mid, post, g1, _, _, g4⟩
  · exact absurd h1 hs
  · rw [hjs] at g1
    have hmid : ∀ l ∈ mid, l ∈ out := by
      intro l hl
      rw [g1]
      exact List.mem_append_left _ (List.mem_append_right _ hl)
    have hkept : ∀ l' ∈ splitNl s,
        startsWithGt (trim l') = false ∧ hasBrk (lowerStr (trim l')) = false := by
      intro l' hl'
      have hmem : trim l' ∈ (splitNl s).map trim := List.mem_map_of_mem _ hl'
      rw [hs_def, g4] at hmem
      obtain ⟨y, hy, hye⟩ := List.mem_map.1 hmem
      obtain ⟨k1, k2⟩ := stripLines_kept y (hmid y hy)
      rw [← hye]
      exact ⟨k1, k2⟩
    have hfix : stripLines (splitNl s) = splitNl s := stripLines_all_kept hkept
    have hts : trim s = s := by rw [hs_def]; exact trim_idem _
    show (if trim (nlJoin (stripLines (splitNl s))) = [] ∧ trim s ≠ []
          then trim s else trim (nlJoin (stripLines (splitNl s)))) = s
    rw [hfix, nlJoin_splitNl, hts]
    rw [if_neg (fun h => h.2 h.1)]

/-- C9 helper: `CleanBody` on the empty string. -/
theorem cleanBody_nil : CleanBody [] = [] := by decide

/-- C9: `CleanBody` (the `stripQuotedReply` of the spec) is idempotent:
stripping twice equals stripping once. -/
theorem cleanBody_idempotent (b : Str) : CleanBody (CleanBody b) = CleanBody b := by
  by_cases hc : trim (nlJoin (stripLines (splitNl b))) = [] ∧ trim b ≠ []
  · have hcb : CleanBody b = trim b := by
      show (if trim (nlJoin (stripLines (splitNl b))) = [] ∧ trim b ≠ []
            then trim b else trim (nlJoin (stripLines (splitNl b)))) = trim b
      rw [if_pos hc]
    rw [hcb]
    have hstrip : trim (nlJoin (stripLines (splitNl (trim b)))) = [] :=
      stripEmpty_trim hc.1
    have htt : trim (trim b) = trim b := trim_idem b
    show (if trim (nlJoin (stripLines (splitNl (trim b)))) = [] ∧ trim (trim b) ≠ []
          then trim (trim b) else trim (nlJoin (stripLines (splitNl (trim b))))) = trim b
    rw [if_pos ⟨hstrip, by rw [htt]; exact hc.2⟩, htt]
  · have hcb : CleanBody b = trim (nlJoin (stripLines (splitNl b))) := by
      show (if trim (nlJoin (stripLines (splitNl b))) = [] ∧ trim b ≠ []
            then trim b else trim (nlJoin (stripLines (splitNl b)))) = _
      rw [if_neg hc]
    by_cases hs : trim (nlJoin (stripLines (splitNl b))) = []
    · rw [hcb, hs]
      exact cleanBody_nil
    · rw [hcb]
      exact cleanBody_fixed b hs

/-- C8 counterexample: the claim promises the original unstripped input back
when stripping empties a non-empty body, but `CleanBody` returns the
`TrimSpace`d input: on `"> hi "` (entirely quoted, hence stripped to
nothing) it returns `"> hi"`, not the original `"> hi "`. -/
theorem cleanBody_original_counterexample :
    "> hi ".toList ≠ ([] : Str) ∧
    trim (nlJoin (stripLines (splitNl "> hi ".toList))) = [] ∧
    CleanBody "> hi ".toList ≠ "> hi ".toList := by decide

/-- C8 (amended): for every input whose stripped form is empty, `CleanBody`
returns the whitespace-trimmed original input (so a non-blank input is
never destroyed, only `TrimSpace`d). -/
theorem cleanBody_fallback_trimmed (b : Str) (hb : b ≠ [])
    (hstrip : trim (nlJoin (stripLines (splitNl b))) = []) :
    CleanBody b = trim b := by
  by_cases ht : trim b = []
  · show (if trim (nlJoin (stripLines (splitNl b))) = [] ∧ trim b ≠ []
          then trim b else trim (nlJoin (stripLines (splitNl b)))) = trim b
    rw [if_neg (fun h => h.2 ht), hstrip, ht]
  · show (if trim (nlJoin (stripLines (splitNl b))) = [] ∧ trim b ≠ []
          then trim b else trim (nlJoin (stripLines (splitNl b)))) = trim b
    rw [if_pos ⟨hstrip, ht⟩]

/-- C8 witness: the amended fallback evaluated on a fully quoted body. -/
theorem cleanBody_fallback_trimmed_witness :
    CleanBody "> hi ".toList = trim "> hi ".toList :=
  cleanBody_fallback_trimmed "> hi ".toList (by decide) (by decide)

/-! ## Ticket-ID extraction (`ExtractTicketID`, imap.go)

The Go code matches the regular expression
`\[\s*([A-Za-z0-9_-]+)\s*-\s*#(\d+)\s*\]` with `FindStringSubmatch`
(leftmost match) and converts group 2 with `strconv.Atoi`, ignoring the
error.  The matcher below embeds exactly that pattern: `findTicket` scans
for the leftmost start position; at a position the engine is
deterministic except for the greedy capture group, which is tried longest
first (`tryGroupLens`). -/

/-- `\s` of Go's regexp (RE2 Perl class): `[\t\n\f\r ]`. -/
def isReWs (c : Char) : Bool :=
  c = '\t' || c = '\n' || c = '\x0c' || c = '\r' || c = ' '

/-- The bracket character class `[A-Za-z0-9_-]` of the ticket pattern. -/
def isClassChar (c : Char) : Bool :=
  c.isAlpha || c.isDigit || c = '_' || c = '-'

/-- Consume one expected character. -/
def expectChar (c : Char) (cs : Str) : Option Str :=
  match cs with
  | d :: rest => if d = c then some rest else none
  | [] => none

/-- Match the fragment `\s*-\s*#(\d+)\s*\]` (the ticket pattern after the
capture group); returns the digit group.  The `\s*`/`\d+` munches are
maximal, which agrees with the regex since each is followed by a character
outside its class. -/
def matchTail (cs : Str) : Option Str :=
  (expectChar '-' (cs.dropWhile isReWs)).bind fun cs1 =>
    (expectChar '#' (cs1.dropWhile isReWs)).bind fun cs2 =>
      let ds := cs2.takeWhile Char.isDigit
      if ds = [] then none
      else
        (expectChar ']' ((cs2.dropWhile Char.isDigit).dropWhile isReWs)).map
          fun _ => ds

/-- Greedy backtracking over the capture-group length: the engine tries
the longest `[A-Za-z0-9_-]+` capture first and shortens it until the tail
pattern matches. -/
def tryGroupLens : Nat → Str → Str → Option (Str × Str)
  | 0, _, _ => none
  | k + 1, run, rest =>
    match matchTail (run.drop (k + 1) ++ rest) with
    | some ds => some (run.take (k + 1), ds)
    | none => tryGroupLens k run rest

/-- Match the whole ticket pattern at the start of the string; returns the
two capture groups.  A position can only match when it holds the opening
`[`. -/
def tryMatchAt : Str → Option (Str × Str)
  | [] => none
  | c :: cs =>
    if c = '[' then
      tryGroupLens ((cs.dropWhile isReWs).takeWhile isClassChar).length
        ((cs.dropWhile isReWs).takeWhile isClassChar)
        ((cs.dropWhile isReWs).dropWhile isClassChar)
    else none

/-- `FindStringSubmatch` for the ticket pattern: leftmost position wins. -/
def findTicket : Str → Option (Str × Str)
  | [] => none
  | c :: cs =>
    match tryMatchAt (c :: cs) with
    | some r => some r
    | none => findTicket cs

/-- Numeric value of a decimal digit string. -/
def digitsVal (ds : Str) : Nat :=
  ds.foldl (fun a c => a * 10 + (c.toNat - '0'.toNat)) 0

/-- Go's maximum `int` (64-bit build). -/
def maxGoInt : Int := 2 ^ 63 - 1

/-- `strconv.Atoi` on a nonempty all-digit string: the value, saturated at
`maxGoInt` on range overflow (`ErrRange` is returned alongside and the
caller discards it). -/
def goAtoi (ds : Str) : Int :=
  if (digitsVal ds : Int) ≤ maxGoInt then (digitsVal ds : Int) else maxGoInt

/-- `strings.EqualFold` restricted to ASCII (the captured group is always
ASCII by construction of the character class). -/
def asciiFoldEq (a b : Str) : Bool :=
  a.map Char.toLower == b.map Char.toLower

/-- `ExtractTicketID` (imap.go): find the ticket token, compare the
captured group with the expected ticket marker case-insensitively, convert
the digits with `Atoi` (error ignored), succeed iff the id is positive. -/
def ExtractTicketID (subject expectedPfx : Str) : Int × Bool :=
  match findTicket subject with
  | none => (0, false)
  | some (g1, ds) =>
    if asciiFoldEq g1 expectedPfx then
      let id := goAtoi ds
      (id, decide (0 < id))
    else (0, false)

example : ExtractTicketID "[ML-#123]".toList "ml".toList = (123, true) := by decide
example : ExtractTicketID "[ML - #123 ]".toList "ML".toList = (123, true) := by decide
example : ExtractTicketID "[ML - # 123 ]".toList "ML".toList = (0, false) := by decide
example : ExtractTicketID "re: [ab-#7] x".toList "AB".toList = (7, true) := by decide
example : ExtractTicketID "[XX-#7]".toList "ML".toList = (0, false) := by decide
example : ExtractTicketID "[ML-#0]".toList "ML".toList = (0, false) := by decide

/-! ### Character-class facts -/

theorem reWs_not_class {c : Char} (h : isReWs c = true) : isClassChar c = false := by
  simp only [isReWs, Bool.or_eq_true, decide_eq_true_eq] at h
  rcases h with ((((h | h) | h) | h) | h) <;> subst h <;> decide

theorem reWs_not_digit {c : Char} (h : isReWs c = true) : c.isDigit = false := by
  simp only [isReWs, Bool.or_eq_true, decide_eq_true_eq] at h
  rcases h with ((((h | h) | h) | h) | h) <;> subst h <;> decide

theorem class_not_reWs {c : Char} (h : isClassChar c = true) : isReWs c = false := by
  by_cases hw : isReWs c = true
  · rw [reWs_not_class hw] at h; cases h
  · simpa using hw

theorem takeWhile_append_all {p : Char → Bool} {a l : Str}
    (h : ∀ c ∈ a, p c = true) : (a ++ l).takeWhile p = a ++ l.takeWhile p := by
  induction a with
  | nil => rfl
  | cons c a ih =>
    have hc : p c = true := h c (List.mem_cons_self ..)
    simp only [List.cons_append, List.takeWhile_cons_of_pos hc]
    rw [ih (fun d hd => h d (List.mem_cons_of_mem _ hd))]

theorem expectChar_self (c : Char) (cs : Str) : expectChar c (c :: cs) = some cs := by
  simp [expectChar]

/-- The tail pattern matches `ws - ws # digits ws ]` and captures the digits. -/
theorem matchTail_some (w2 w3 w4 ds post : Str)
    (hw2 : ∀ c ∈ w2, isReWs c = true) (hw3 : ∀ c ∈ w3, isReWs c = true)
    (hw4 : ∀ c ∈ w4, isReWs c = true)
    (hds : ds ≠ []) (hdsd : ∀ c ∈ ds, c.isDigit = true) :
    matchTail (w2 ++ ('-' :: (w3 ++ ('#' :: (ds ++ (w4 ++ (']' :: post))))))) = some ds := by
  have h1 : (w2 ++ ('-' :: (w3 ++ ('#' :: (ds ++ (w4 ++ (']' :: post))))))).dropWhile isReWs
      = '-' :: (w3 ++ ('#' :: (ds ++ (w4 ++ (']' :: post))))) := by
    rw [dropWhile_append_all hw2, List.dropWhile_cons_of_neg (by decide)]
  have h2 : (w3 ++ ('#' :: (ds ++ (w4 ++ (']' :: post))))).dropWhile isReWs
      = '#' :: (ds ++ (w4 ++ (']' :: post))) := by
    rw [dropWhile_append_all hw3, List.dropWhile_cons_of_neg (by decide)]
  have h3 : (ds ++ (w4 ++ (']' :: post))).takeWhile Char.isDigit = ds := by
    rw [takeWhile_append_all hdsd]
    cases w4 with
    | nil => rw [List.nil_append, List.takeWhile_cons_of_neg (by decide)]; simp
    | cons c4 w4' =>
      have hnc4 : ¬ (c4.isDigit = true) := by
        simp [reWs_not_digit (hw4 c4 (List.mem_cons_self ..))]
      rw [List.cons_append, List.takeWhile_cons_of_neg hnc4]
      simp
  have h4 : (ds ++ (w4 ++ (']' :: post))).dropWhile Char.isDigit = w4 ++ (']' :: post) := by
    rw [dropWhile_append_all hdsd]
    cases w4 with
    | nil => rw [List.nil_append, List.dropWhile_cons_of_neg (by decide)]
    | cons c4 w4' =>
      have hnc4 : ¬ (c4.isDigit = true) := by
        simp [reWs_not_digit (hw4 c4 (List.mem_cons_self ..))]
      rw [List.cons_append, List.dropWhile_cons_of_neg hnc4, ← List.cons_append]
  have h5 : (w4 ++ (']' :: post)).dropWhile isReWs = ']' :: post := by
    rw [dropWhile_append_all hw4, List.dropWhile_cons_of_neg (by decide)]
  unfold matchTail
  rw [h1, expectChar_self, Option.some_bind, h2, expectChar_self, Option.some_bind]
  simp only [h3, h4, h5, if_neg hds, expectChar_self, Option.map_some']

/-- Without the `-` separator in front, the tail pattern rejects
`ws # ...` (used by the backtracking step). -/
theorem matchTail_none_hash (w3 t : Str) (hw3 : ∀ c ∈ w3, isReWs c = true) :
    matchTail (w3 ++ ('#' :: t)) = none := by
  have h1 : (w3 ++ ('#' :: t)).dropWhile isReWs = '#' :: t := by
    rw [dropWhile_append_all hw3, List.dropWhile_cons_of_neg (by decide)]
  unfold matchTail
  rw [h1]
  simp [expectChar]

theorem tryGroupLens_succ (k : Nat) (run rest : Str) :
    tryGroupLens (k + 1) run rest =
      match matchTail (run.drop (k + 1) ++ rest) with
      | some ds => some (run.take (k + 1), ds)
      | none => tryGroupLens k run rest := rfl

theorem tryGroupLens_succ_some {k : Nat} {run rest ds : Str}
    (h : matchTail (run.drop (k + 1) ++ rest) = some ds) :
    tryGroupLens (k + 1) run rest = some (run.take (k + 1), ds) := by
  rw [tryGroupLens_succ, h]

theorem tryGroupLens_succ_none {k : Nat} {run rest : Str}
    (h : matchTail (run.drop (k + 1) ++ rest) = none) :
    tryGroupLens (k + 1) run rest = tryGroupLens k run rest := by
  rw [tryGroupLens_succ, h]

theorem findTicket_cons (c : Char) (cs : Str) :
    findTicket (c :: cs) =
      match tryMatchAt (c :: cs) with
      | some r => some r
      | none => findTicket cs := rfl

theorem tryMatchAt_bracket (cs : Str) :
    tryMatchAt ('[' :: cs) =
      tryGroupLens ((cs.dropWhile isReWs).takeWhile isClassChar).length
        ((cs.dropWhile isReWs).takeWhile isClassChar)
        ((cs.dropWhile isReWs).dropWhile isClassChar) := rfl

theorem tryMatchAt_not_bracket {c : Char} (cs : Str) (h : c ≠ '[') :
    tryMatchAt (c :: cs) = none := by
  show (if c = '[' then
      tryGroupLens ((cs.dropWhile isReWs).takeWhile isClassChar).length
        ((cs.dropWhile isReWs).takeWhile isClassChar)
        ((cs.dropWhile isReWs).dropWhile isClassChar)
    else none) = none
  rw [if_neg h]

/-- The scan passes over any leading segment that holds no `[`: no ticket
pattern can start there (leftmost-match preemption only arises from an
earlier `[`). -/
theorem findTicket_skip {pre : Str} (S : Str) (hpre : ∀ c ∈ pre, c ≠ '[') :
    findTicket (pre ++ S) = findTicket S := by
  induction pre with
  | nil => rfl
  | cons c pre' ih =>
    rw [List.cons_append, findTicket_cons,
      tryMatchAt_not_bracket _ (hpre c (List.mem_cons_self ..))]
    exact ih (fun d hd => hpre d (List.mem_cons_of_mem _ hd))

theorem takeWhile_run {p : Char → Bool} {tok X : Str}
    (hall : ∀ c ∈ tok, p c = true) (hstop : X.takeWhile p = []) :
    (tok ++ X).takeWhile p = tok := by
  rw [takeWhile_append_all hall, hstop, List.append_nil]

theorem dropWhile_run {p : Char → Bool} {tok X : Str}
    (hall : ∀ c ∈ tok, p c = true) (hstop : X.dropWhile p = X) :
    (tok ++ X).dropWhile p = X := by
  rw [dropWhile_append_all hall, hstop]

theorem dropWhile_front {p : Char → Bool} {tok X : Str} (htok : tok ≠ [])
    (hh : ∀ c ∈ tok, p c = false) : (tok ++ X).dropWhile p = tok ++ X := by
  cases tok with
  | nil => exact absurd rfl htok
  | cons t0 tok' =>
    have h0 : ¬ (p t0 = true) := by simp [hh t0 (List.mem_cons_self ..)]
    rw [List.cons_append, List.dropWhile_cons_of_neg h0]

/-- The matcher finds a well-formed ticket token placed at the start of the
subject: whitespace is allowed after `[`, around `-` and before `]`, the
group is a nonempty class-character run, the digits are nonempty; trailing
text after `]` is arbitrary. -/
theorem findTicket_token (w1 w2 w3 w4 tok ds post : Str)
    (hw1 : ∀ c ∈ w1, isReWs c = true) (hw2 : ∀ c ∈ w2, isReWs c = true)
    (hw3 : ∀ c ∈ w3, isReWs c = true) (hw4 : ∀ c ∈ w4, isReWs c = true)
    (htok : tok ≠ []) (htokc : ∀ c ∈ tok, isClassChar c = true)
    (hds : ds ≠ []) (hdsd : ∀ c ∈ ds, c.isDigit = true) :
    findTicket
      ('[' :: (w1 ++ (tok ++ (w2 ++ ('-' :: (w3 ++ ('#' :: (ds ++ (w4 ++ (']' :: post))))))))))
      = some (tok, ds) := by
  have htokws : ∀ c ∈ tok, isReWs c = false := fun c hc => class_not_reWs (htokc c hc)
  have hdrop1 : (w1 ++ (tok ++ (w2 ++ ('-' :: (w3 ++ ('#' :: (ds ++ (w4 ++ (']' :: post))))))))).dropWhile isReWs
      = tok ++ (w2 ++ ('-' :: (w3 ++ ('#' :: (ds ++ (w4 ++ (']' :: post))))))) := by
    rw [dropWhile_append_all hw1]
    exact dropWhile_front htok htokws
  obtain ⟨m, hlen⟩ : ∃ m, tok.length = m + 1 := by
    cases tok with
    | nil => exact absurd rfl htok
    | cons t0 tok' => exact ⟨tok'.length, rfl⟩
  have htm : tryMatchAt
      ('[' :: (w1 ++ (tok ++ (w2 ++ ('-' :: (w3 ++ ('#' :: (ds ++ (w4 ++ (']' :: post)))))))))) = some (tok, ds) := by
    rw [tryMatchAt_bracket, hdrop1]
    cases w2 with
    | cons c2 w2' =>
      have hnc2 : ¬ (isClassChar c2 = true) := by
        simp [reWs_not_class (hw2 c2 (List.mem_cons_self ..))]
      have hstop : ((c2 :: w2') ++ ('-' :: (w3 ++ ('#' :: (ds ++ (w4 ++ (']' :: post))))))).takeWhile isClassChar = [] := by
        rw [List.cons_append, List.takeWhile_cons_of_neg hnc2]
      have hstop2 : ((c2 :: w2') ++ ('-' :: (w3 ++ ('#' :: (ds ++ (w4 ++ (']' :: post))))))).dropWhile isClassChar
          = (c2 :: w2') ++ ('-' :: (w3 ++ ('#' :: (ds ++ (w4 ++ (']' :: post)))))) := by
        rw [List.cons_append, List.dropWhile_cons_of_neg hnc2]
      rw [takeWhile_run htokc hstop, dropWhile_run htokc hstop2]
      have hmt : matchTail (tok.drop (m + 1) ++
          ((c2 :: w2') ++ ('-' :: (w3 ++ ('#' :: (ds ++ (w4 ++ (']' :: post)))))))) = some ds := by
        rw [← hlen, List.drop_length, List.nil_append]
        exact matchTail_some (c2 :: w2') w3 w4 ds post hw2 hw3 hw4 hds hdsd
      rw [hlen, tryGroupLens_succ_some hmt, ← hlen, List.take_length]
    | nil =>
      simp only [List.nil_append]
      have hstop3 : (w3 ++ ('#' :: (ds ++ (w4 ++ (']' :: post))))).takeWhile isClassChar = [] := by
        cases w3 with
        | nil => rw [List.nil_append, List.takeWhile_cons_of_neg (by decide)]
        | cons c3 w3' =>
          have hnc3 : ¬ (isClassChar c3 = true) := by
            simp [reWs_not_class (hw3 c3 (List.mem_cons_self ..))]
          rw [List.cons_append, List.takeWhile_cons_of_neg hnc3]
      have hstop4 : (w3 ++ ('#' :: (ds ++ (w4 ++ (']' :: post))))).dropWhile isClassChar
          = w3 ++ ('#' :: (ds ++ (w4 ++ (']' :: post)))) := by
        cases w3 with
        | nil => rw [List.nil_append, List.dropWhile_cons_of_neg (by decide)]
        | cons c3 w3' =>
          have hnc3 : ¬ (isClassChar c3 = true) := by
            simp [reWs_not_class (hw3 c3 (List.mem_cons_self ..))]
          rw [List.cons_append, List.dropWhile_cons_of_neg hnc3]
      have hrun : (tok ++ ('-' :: (w3 ++ ('#' :: (ds ++ (w4 ++ (']' :: post))))))).takeWhile isClassChar
          = tok ++ ['-'] := by
        rw [takeWhile_append_all htokc, List.takeWhile_cons_of_pos (by decide), hstop3]
      have hrest : (tok ++ ('-' :: (w3 ++ ('#' :: (ds ++ (w4 ++ (']' :: post))))))).dropWhile isClassChar
          = w3 ++ ('#' :: (ds ++ (w4 ++ (']' :: post)))) := by
        rw [dropWhile_append_all htokc, List.dropWhile_cons_of_pos (by decide), hstop4]
      rw [hrun, hrest]
      have hlen1 : (tok ++ ['-']).length = (m + 1) + 1 := by
        simp [hlen]
      have hm1 : matchTail ((tok ++ ['-']).drop ((m + 1) + 1) ++
          (w3 ++ ('#' :: (ds ++ (w4 ++ (']' :: post)))))) = none := by
        rw [← hlen1, List.drop_length, List.nil_append]
        exact matchTail_none_hash w3 _ hw3
      have hm2 : matchTail ((tok ++ ['-']).drop (m + 1) ++
          (w3 ++ ('#' :: (ds ++ (w4 ++ (']' :: post)))))) = some ds := by
        rw [← hlen, List.drop_left]
        have := matchTail_some [] w3 w4 ds post (by simp) hw3 hw4 hds hdsd
        simpa using this
      rw [hlen1, tryGroupLens_succ_none hm1, tryGroupLens_succ_some hm2, ← hlen,
        List.take_left]
  rw [findTicket_cons, htm]

/-- C2 counterexample: the claim fails in three independent ways, each at
a concrete input.  (1) Whitespace between `#` and the digits is not
tolerated (`#(\d+)` requires the digits immediately), so the spec's own
example `extractID("[ML - # 123 ]", "ML")` returns `(0, false)`.
(2) `FindStringSubmatch` takes the leftmost token: an earlier bracketed
candidate with a foreign marker preempts a matching one later in the
subject.  (3) A digit run beyond the machine-int range does not come back
as `(N, true)` — `Atoi` saturates (see C10). -/
theorem extractTicketID_ws_counterexample :
    (ExtractTicketID "[ML - # 123 ]".toList "ML".toList = (0, false) ∧
     ExtractTicketID "[ML - # 123 ]".toList "ML".toList ≠ (123, true)) ∧
    (ExtractTicketID "[XX-#5] [ML-#123]".toList "ml".toList = (0, false) ∧
     ExtractTicketID "[XX-#5] [ML-#123]".toList "ml".toList ≠ (123, true)) ∧
    (ExtractTicketID "[ML-#9999999999999999999]".toList "ml".toList ≠
      (9999999999999999999, true)) := by decide

/-- C2 (amended): `extractID("[ML-#123]", "ml") = (123, true)`, and in
general for every subject containing a `[PFX-#N]` token — whitespace
allowed after `[`, around `-` and before `]`, but not between `#` and the
digits; arbitrary text after `]`; no `[` anywhere before the token (the
regex takes the leftmost match, so an earlier bracketed candidate
preempts) — whose group equals the expected marker case-insensitively and
whose digits denote a positive value within the machine-int range (larger
values saturate, see C10), `ExtractTicketID` returns `(N, true)`. -/
theorem extractTicketID_token (pre w1 w2 w3 w4 tok ds post pfx : Str)
    (hpre : ∀ c ∈ pre, c ≠ '[')
    (hw1 : ∀ c ∈ w1, isReWs c = true) (hw2 : ∀ c ∈ w2, isReWs c = true)
    (hw3 : ∀ c ∈ w3, isReWs c = true) (hw4 : ∀ c ∈ w4, isReWs c = true)
    (htok : tok ≠ []) (htokc : ∀ c ∈ tok, isClassChar c = true)
    (hds : ds ≠ []) (hdsd : ∀ c ∈ ds, c.isDigit = true)
    (hfold : asciiFoldEq tok pfx = true)
    (hpos : 0 < digitsVal ds) (hle : (digitsVal ds : Int) ≤ maxGoInt) :
    ExtractTicketID
      (pre ++ '[' :: (w1 ++ (tok ++ (w2 ++ ('-' :: (w3 ++ ('#' ::
        (ds ++ (w4 ++ (']' :: post))))))))))
      pfx = ((digitsVal ds : Int), true) := by
  unfold ExtractTicketID
  rw [findTicket_skip _ hpre,
    findTicket_token w1 w2 w3 w4 tok ds post hw1 hw2 hw3 hw4 htok htokc hds hdsd]
  show (if asciiFoldEq tok pfx then ((goAtoi ds), decide (0 < goAtoi ds))
        else (0, false)) = _
  rw [if_pos hfold]
  have hg : goAtoi ds = (digitsVal ds : Int) := by unfold goAtoi; rw [if_pos hle]
  rw [hg]
  have hp : decide ((0 : Int) < (digitsVal ds : Nat)) = true :=
    decide_eq_true (by exact_mod_cast hpos)
  rw [hp]

/-- C2 witness: a token contained mid-subject (after a bracket-free
lead-in and with trailing text), instantiating the amended statement. -/
theorem extractTicketID_token_witness :
    ExtractTicketID
      ("re: ".toList ++ '[' :: ([] ++ ("ML".toList ++ ([] ++ ('-' ::
        ([] ++ ('#' :: ("123".toList ++ ([] ++ (']' :: " x".toList))))))))))
      "ml".toList = ((digitsVal "123".toList : Int), true) :=
  extractTicketID_token "re: ".toList [] [] [] [] "ML".toList "123".toList
    " x".toList "ml".toList
    (by decide) (by decide) (by decide) (by decide) (by decide) (by decide)
    (by decide) (by decide) (by decide) (by decide) (by decide) (by decide)

/-- C10 counterexample: the claim quantifies over every subject containing
an overflowing matching token, but the leftmost match preempts: with the
foreign token `[XX-#5]` first, the overflowing `[ML-#…]` token is never
reached and the function returns `(0, false)`, not the saturated maximum
int. -/
theorem extractTicketID_overflow_counterexample :
    ExtractTicketID "[XX-#5] [ML-#99999999999999999999]".toList "ml".toList
      = (0, false) ∧
    ExtractTicketID "[XX-#5] [ML-#99999999999999999999]".toList "ml".toList
      ≠ (maxGoInt, true) := by decide

/-- C10 (amended): when the digit run of a well-formed, matching token
exceeds the machine-int range and no `[` precedes the token (so the
leftmost match is the token itself), `Atoi`'s range error is discarded
and `ExtractTicketID` returns found = true with the saturated maximum
int. -/
theorem extractTicketID_overflow (pre w1 w2 w3 w4 tok ds post pfx : Str)
    (hpre : ∀ c ∈ pre, c ≠ '[')
    (hw1 : ∀ c ∈ w1, isReWs c = true) (hw2 : ∀ c ∈ w2, isReWs c = true)
    (hw3 : ∀ c ∈ w3, isReWs c = true) (hw4 : ∀ c ∈ w4, isReWs c = true)
    (htok : tok ≠ []) (htokc : ∀ c ∈ tok, isClassChar c = true)
    (hds : ds ≠ []) (hdsd : ∀ c ∈ ds, c.isDigit = true)
    (hfold : asciiFoldEq tok pfx = true)
    (hbig : maxGoInt < (digitsVal ds : Int)) :
    ExtractTicketID
      (pre ++ '[' :: (w1 ++ (tok ++ (w2 ++ ('-' :: (w3 ++ ('#' ::
        (ds ++ (w4 ++ (']' :: post))))))))))
      pfx = (maxGoInt, true) := by
  unfold ExtractTicketID
  rw [findTicket_skip _ hpre,
    findTicket_token w1 w2 w3 w4 tok ds post hw1 hw2 hw3 hw4 htok htokc hds hdsd]
  show (if asciiFoldEq tok pfx then ((goAtoi ds), decide (0 < goAtoi ds))
        else (0, false)) = _
  rw [if_pos hfold]
  have hg : goAtoi ds = maxGoInt := by unfold goAtoi; rw [if_neg (not_le.2 hbig)]
  rw [hg]
  have hp : decide ((0 : Int) < maxGoInt) = true := by decide
  rw [hp]

/-- C10 witness: a 19-nines ticket id saturates to `2^63 - 1` with
found = true. -/
theorem extractTicketID_overflow_witness :
    ExtractTicketID
      ([] ++ '[' :: ([] ++ ("ML".toList ++ ([] ++ ('-' ::
        ([] ++ ('#' :: ("9999999999999999999".toList ++
          ([] ++ (']' :: ([] : Str)))))))))))
      "ml".toList = (maxGoInt, true) :=
  extractTicketID_overflow [] [] [] [] [] "ML".toList
    "9999999999999999999".toList [] "ml".toList
    (by decide) (by decide) (by decide) (by decide) (by decide) (by decide)
    (by decide) (by decide) (by decide) (by decide) (by decide)

/-! ## MIME part classification (`parseEmailContent`, imap.go)

The multipart branch of `parseEmailContent` reads all parts into memory
and classifies each.  A part is modelled by the header data the control
flow inspects; the pure helpers the loop calls out to (`htmlToText`,
base64 decoding, the content-type→extension table, `decodeTextContent`)
are supplied as an environment of functions.  The nested-multipart branch
re-runs a reader over the inner body; its per-part classification loop is
embedded as `nestedStep`. -/

structure MimePart where
  ct : Str            -- media type of Content-Type, e.g. "text/plain"
  ctName : Str        -- "name" parameter of Content-Type ("" if absent)
  ctCharset : Str     -- "charset" parameter of Content-Type
  disp : Str          -- media type of Content-Disposition ("" if absent)
  dispFilename : Str  -- "filename" parameter of Content-Disposition
  xferEnc : Str       -- Content-Transfer-Encoding header value
  body : Str          -- raw part body

structure Attachment where
  filename : Str
  contentType : Str
  size : Int
  data : Str
deriving DecidableEq

structure MimeEnv where
  htmlToText : Str → Str
  b64decode : Str → Option Str
  extFor : Str → Str
  decodeText : Str → Str → Str → Str

/-- `strings.HasPrefix(s, pre)`. -/
def strHasPfx (pre s : Str) : Bool := pre.isPrefixOf s

/-- The Content-Transfer-Encoding handling of attachment data: base64 is
decoded when the header says so and decoding succeeds; otherwise the raw
bytes are kept. -/
def decodeXfer (env : MimeEnv) (p : MimePart) : Str :=
  if p.xferEnc ≠ [] ∧ lowerStr p.xferEnc = "base64".toList then
    match env.b64decode p.body with
    | some d => d
    | none => p.body
  else p.body

/-- Filename resolution and data decoding for a top-level part taken as an
attachment via its disposition. -/
def topAttachmentOf (env : MimeEnv) (p : MimePart) : Attachment :=
  let fn :=
    if p.dispFilename ≠ [] then p.dispFilename
    else if p.ctName ≠ [] then p.ctName
    else if env.extFor p.ct ≠ [] then "attachment".toList ++ env.extFor p.ct
    else "attachment.bin".toList
  let data := decodeXfer env p
  { filename := fn, contentType := p.ct, size := data.length, data := data }

/-- The top-level part loop body of `parseEmailContent` for non-multipart
parts (the accumulator is `(bodyText, attachments)`; multipart parts are
handed to the nested reader, modelled by `nestedStep`, and contribute
nothing here). -/
def topStep (env : MimeEnv) (acc : Str × List Attachment) (p : MimePart) :
    Str × List Attachment :=
  let (bodyText, atts) := acc
  if p.disp = "attachment".toList ∨ p.disp = "inline".toList then
    (bodyText, atts ++ [topAttachmentOf env p])
  else if strHasPfx "text/".toList p.ct then
    if bodyText = [] then
      if strHasPfx "text/plain".toList p.ct then (p.body, atts)
      else if strHasPfx "text/html".toList p.ct then (env.htmlToText p.body, atts)
      else (bodyText, atts)
    else (bodyText, atts)
  else if strHasPfx "multipart/".toList p.ct then
    (bodyText, atts)
  else
    -- the trailing attachment-detection block: content-type `name`
    -- parameter on a non-text part, or an image/application content type
    let att1 :=
      if p.ctName ≠ [] ∧ ¬ strHasPfx "text/".toList p.ct then some p.ctName
      else none
    let att2 :=
      match att1 with
      | some fn => some fn
      | none =>
        if strHasPfx "image/".toList p.ct ∨ strHasPfx "application/".toList p.ct then
          some (if p.ctName ≠ [] then p.ctName else p.dispFilename)
        else none
    match att2 with
    | some fn0 =>
      let fn := if fn0 ≠ [] then fn0
        else if env.extFor p.ct ≠ [] then "attachment".toList ++ env.extFor p.ct
        else "attachment.bin".toList
      let data := decodeXfer env p
      (bodyText, atts ++
        [{ filename := fn, contentType := p.ct, size := data.length, data := data }])
    | none => (bodyText, atts)

/-- The top-level multipart scan: fold the loop body over the parts,
starting from no body text and no attachments. -/
def parseTopParts (env : MimeEnv) (parts : List MimePart) : Str × List Attachment :=
  parts.foldl (topStep env) ([], [])

/-- The nested-part attachment test of `parseEmailContent`: disposition
`attachment`, or `inline` with a non-text content type, or a content-type
`name` parameter on a non-text part, or an image/application content
type. -/
def nestedIsAttachment (p : MimePart) : Bool :=
  if p.disp = "attachment".toList then true
  else if p.disp = "inline".toList ∧ ¬ strHasPfx "text/".toList p.ct then true
  else if p.ctName ≠ [] ∧ ¬ strHasPfx "text/".toList p.ct then true
  else if strHasPfx "image/".toList p.ct ∨ strHasPfx "application/".toList p.ct then true
  else false

/-- Filename resolution and data decoding for a nested attachment. -/
def nestedAttachmentOf (env : MimeEnv) (p : MimePart) : Attachment :=
  let fn :=
    if p.dispFilename ≠ [] then p.dispFilename
    else if p.ctName ≠ [] then p.ctName
    else if env.extFor p.ct ≠ [] then "nested_attachment".toList ++ env.extFor p.ct
    else "nested_attachment.bin".toList
  let data := decodeXfer env p
  { filename := fn, contentType := p.ct, size := data.length, data := data }

/-- The nested-part loop body of `parseEmailContent`. -/
def nestedStep (env : MimeEnv) (acc : Str × List Attachment) (p : MimePart) :
    Str × List Attachment :=
  let (bodyText, atts) := acc
  if nestedIsAttachment p then (bodyText, atts ++ [nestedAttachmentOf env p])
  else if strHasPfx "text/".toList p.ct ∧ bodyText = [] then
    if strHasPfx "text/plain".toList p.ct then
      (env.decodeText p.body p.xferEnc p.ctCharset, atts)
    else if strHasPfx "text/html".toList p.ct then
      (env.htmlToText (env.decodeText p.body p.xferEnc p.ctCharset), atts)
    else (bodyText, atts)
  else (bodyText, atts)

/-- A fixed environment with inert helpers, for concrete evaluation. -/
def mimeEnvC : MimeEnv :=
  { htmlToText := fun s => s, b64decode := fun _ => none,
    extFor := fun _ => [], decodeText := fun b _ _ => b }

/-- A top-level part with disposition `inline` and content type
`text/plain`. -/
def inlineTextPart : MimePart :=
  { ct := "text/plain".toList, ctName := [], ctCharset := [],
    disp := "inline".toList, dispFilename := [], xferEnc := [],
    body := "hello".toList }

/-- An inline image part. -/
def inlineImagePart : MimePart :=
  { ct := "image/jpeg".toList, ctName := [], ctCharset := [],
    disp := "inline".toList, dispFilename := "pic.jpg".toList, xferEnc := [],
    body := "JJ".toList }

/-- C6 counterexample: at the top level of `parseEmailContent` a part with
disposition `inline` and content type `text/plain` IS classified as an
attachment and does NOT become the body — the top-level branch treats any
`attachment` or `inline` disposition as an attachment without the
text-type exemption the claim describes. -/
theorem topLevel_inline_text_counterexample :
    inlineTextPart.disp = "inline".toList ∧
    strHasPfx "text/".toList inlineTextPart.ct = true ∧
    (parseTopParts mimeEnvC [inlineTextPart]).1 = [] ∧
    (parseTopParts mimeEnvC [inlineTextPart]).2 =
      [{ filename := "attachment.bin".toList, contentType := "text/plain".toList,
         size := 5, data := "hello".toList }] := by
  refine ⟨rfl, by decide, rfl, by decide⟩

theorem bool_eq_false {b : Bool} (h : ¬ b = true) : b = false := by
  cases b
  · rfl
  · exact absurd rfl h

theorem bool_ne_true {b : Bool} (h : b = false) : ¬ b = true := fun ht => by
  rw [h] at ht
  exact Bool.noConfusion ht

/-- Two matches against the same string: the shorter pattern heads the
longer one. -/
theorem isPfxOf_shorter : ∀ (s p1 p2 : Str), p1.isPrefixOf s = true →
    p2.isPrefixOf s = true → p2.length ≤ p1.length → p2.isPrefixOf p1 = true := by
  intro s
  induction s with
  | nil =>
    intro p1 p2 h1 h2 hlen
    cases p1 with
    | nil =>
      cases p2 with
      | nil => rfl
      | cons b p2' => simp at hlen
    | cons a p1' => simp [List.isPrefixOf] at h1
  | cons c s' ih =>
    intro p1 p2 h1 h2 hlen
    cases p2 with
    | nil => simp [List.isPrefixOf]
    | cons b p2' =>
      cases p1 with
      | nil => simp at hlen
      | cons a p1' =>
        have h1' : (a == c && p1'.isPrefixOf s') = true := h1
        have h2' : (b == c && p2'.isPrefixOf s') = true := h2
        obtain ⟨ha, hp1⟩ := Bool.and_eq_true_iff.1 h1'
        obtain ⟨hb, hp2⟩ := Bool.and_eq_true_iff.1 h2'
        show (b == a && p2'.isPrefixOf p1') = true
        rw [Bool.and_eq_true_iff]
        constructor
        · rw [eq_of_beq ha, eq_of_beq hb]
          exact beq_self_eq_true c
        · exact ih p1' p2' hp1 hp2 (by simpa using hlen)

theorem hasPfx_text_not_imgapp {ct : Str} (h : strHasPfx "text/".toList ct = true) :
    strHasPfx "image/".toList ct = false ∧
    strHasPfx "application/".toList ct = false := by
  constructor
  · by_cases hi : strHasPfx "image/".toList ct = true
    · exact absurd (isPfxOf_shorter ct "image/".toList "text/".toList hi h (by decide))
        (by decide)
    · exact bool_eq_false hi
  · by_cases hi : strHasPfx "application/".toList ct = true
    · exact absurd
        (isPfxOf_shorter ct "application/".toList "text/".toList hi h (by decide))
        (by decide)
    · exact bool_eq_false hi

/-- Unfolded form of the nested loop body. -/
theorem nestedStep_eq (env : MimeEnv) (acc : Str × List Attachment) (p : MimePart) :
    nestedStep env acc p =
      if nestedIsAttachment p then (acc.1, acc.2 ++ [nestedAttachmentOf env p])
      else if strHasPfx "text/".toList p.ct ∧ acc.1 = [] then
        if strHasPfx "text/plain".toList p.ct then
          (env.decodeText p.body p.xferEnc p.ctCharset, acc.2)
        else if strHasPfx "text/html".toList p.ct then
          (env.htmlToText (env.decodeText p.body p.xferEnc p.ctCharset), acc.2)
        else (acc.1, acc.2)
      else (acc.1, acc.2) := by
  rcases acc with ⟨b, a⟩
  rfl

/-- C6 (amended): in the nested-part loop the claim's rule holds: an
inline part with a `text/*` content type is not classified as an
attachment and contributes no attachment; when no body text has been
captured yet it becomes the body (decoded text for `text/plain`,
tag-stripped for `text/html`); an inline part with a non-text content
type is classified as an attachment.  At the top level, by contrast, any
inline part is an attachment (see the counterexample). -/
theorem nestedStep_inline_text (env : MimeEnv) (p q : MimePart)
    (atts : List Attachment)
    (hp : p.disp = "inline".toList) (hpt : strHasPfx "text/".toList p.ct = true)
    (hq : q.disp = "inline".toList) (hqt : strHasPfx "text/".toList q.ct = false) :
    nestedIsAttachment p = false ∧
    (nestedStep env ([], atts) p).2 = atts ∧
    (strHasPfx "text/plain".toList p.ct = true →
      (nestedStep env ([], atts) p).1 = env.decodeText p.body p.xferEnc p.ctCharset) ∧
    (strHasPfx "text/html".toList p.ct = true →
      (nestedStep env ([], atts) p).1 =
        env.htmlToText (env.decodeText p.body p.xferEnc p.ctCharset)) ∧
    nestedIsAttachment q = true := by
  obtain ⟨himg, happ⟩ := hasPfx_text_not_imgapp hpt
  have hpd : p.disp ≠ "attachment".toList := by
    rw [hp]; decide
  have hna : nestedIsAttachment p = false := by
    unfold nestedIsAttachment
    rw [if_neg hpd,
      if_neg (fun hcon => hcon.2 hpt),
      if_neg (fun hcon => hcon.2 hpt),
      if_neg (fun hcon => hcon.elim (bool_ne_true himg) (bool_ne_true happ))]
  have hq2 : nestedIsAttachment q = true := by
    unfold nestedIsAttachment
    by_cases hqd : q.disp = "attachment".toList
    · rw [if_pos hqd]
    · rw [if_neg hqd, if_pos ⟨hq, bool_ne_true hqt⟩]
  refine ⟨hna, ?_, ?_, ?_, hq2⟩
  · rw [nestedStep_eq, if_neg (bool_ne_true hna)]
    by_cases h2 : strHasPfx "text/".toList p.ct = true ∧ ([] : Str) = []
    · rw [if_pos h2]
      by_cases h3 : strHasPfx "text/plain".toList p.ct = true
      · rw [if_pos h3]
      · rw [if_neg h3]
        by_cases h4 : strHasPfx "text/html".toList p.ct = true
        · rw [if_pos h4]
        · rw [if_neg h4]
    · rw [if_neg h2]
  · intro hplain
    rw [nestedStep_eq, if_neg (bool_ne_true hna), if_pos ⟨hpt, rfl⟩, if_pos hplain]
  · intro hhtml
    have hplain : strHasPfx "text/plain".toList p.ct = false := by
      by_cases hpl : strHasPfx "text/plain".toList p.ct = true
      · exact absurd
          (isPfxOf_shorter p.ct "text/plain".toList "text/html".toList hpl hhtml
            (by decide))
          (by decide)
      · exact bool_eq_false hpl
    rw [nestedStep_eq, if_neg (bool_ne_true hna), if_pos ⟨hpt, rfl⟩,
      if_neg (bool_ne_true hplain), if_pos hhtml]

/-- C6 witness: the amended nested rule evaluated on a concrete inline
`text/plain` part and a concrete inline `image/jpeg` part. -/
theorem nestedStep_inline_text_witness :
    nestedIsAttachment inlineTextPart = false ∧
    (nestedStep mimeEnvC ([], []) inlineTextPart).2 = [] ∧
    (strHasPfx "text/plain".toList inlineTextPart.ct = true →
      (nestedStep mimeEnvC ([], []) inlineTextPart).1 =
        mimeEnvC.decodeText inlineTextPart.body inlineTextPart.xferEnc
          inlineTextPart.ctCharset) ∧
    (strHasPfx "text/html".toList inlineTextPart.ct = true →
      (nestedStep mimeEnvC ([], []) inlineTextPart).1 =
        mimeEnvC.htmlToText (mimeEnvC.decodeText inlineTextPart.body
          inlineTextPart.xferEnc inlineTextPart.ctCharset)) ∧
    nestedIsAttachment inlineImagePart = true :=
  nestedStep_inline_text mimeEnvC inlineTextPart inlineImagePart []
    rfl (by decide) rfl (by decide)

/-! ## Odoo tasks and the done predicate (odoo package) -/

/-- `odoo.Task`: the fields the correlator control flow inspects.
`ListRecentlyChangedTasksForSLA` fills id/name/stage; `GetTask` also fills
the customer fields. -/
structure OdooTask where
  id : Int
  name : Str
  stageID : Int
  stageName : Str
  customerEmail : Str
  customerName : Str
  assignedUserName : Str
deriving DecidableEq

/-- `IsTaskDone` (odoo package): when the configured done-stage-id list is
non-empty, done iff the current stage id is in the list; otherwise a
case-insensitive substring match of the stage name against
done/hotovo/closed/resolved. -/
def IsTaskDone (t : OdooTask) (doneStageIDs : List Int) : Bool :=
  if doneStageIDs.length > 0 then
    doneStageIDs.contains t.stageID
  else
    strContains "done".toList (lowerStr t.stageName) ||
    strContains "hotovo".toList (lowerStr t.stageName) ||
    strContains "closed".toList (lowerStr t.stageName) ||
    strContains "resolved".toList (lowerStr t.stageName)

/-- `ReopenTask` (odoo package): fetch the task (`none` = `GetTask`
error); if not `IsTaskDone(task, nil)` — the reopen check passes a nil
list, so the name fallback always decides — report `false` (no reopen
needed); otherwise call `SetTaskStage` (`setStageOk` = whether the stage
write succeeds; on failure the Go code returns the error) and, on
success, report `true` (a `message_post` failure afterwards is only
logged). -/
def ReopenTask (getTask : Int → Option OdooTask) (setStageOk : Bool)
    (taskID : Int) : Option Bool :=
  match getTask taskID with
  | none => none
  | some t =>
    if ¬ IsTaskDone t [] then some false
    else if setStageOk then some true else none

/-- A task whose stage id is configured as done but whose stage name
contains no done keyword. -/
def reopenCexTask : OdooTask :=
  { id := 5, name := "T".toList, stageID := 5, stageName := "Finished".toList,
    customerEmail := "c@x".toList, customerName := [], assignedUserName := [] }

/-- C5 counterexample: with done-stage list `[5]`, task `reopenCexTask`
satisfies the §4.4 done predicate, yet the inbound reopen path (with the
stage write succeeding) does not trigger a reopen — `ReopenTask` checks
`IsTaskDone(task, nil)` and the name fallback rejects the stage name
`Finished`. -/
theorem reopenTask_counterexample :
    IsTaskDone reopenCexTask [5] = true ∧
    ReopenTask (fun i => if i = 5 then some reopenCexTask else none) true 5 =
      some false := by decide

/-- C5 (amended): the reopen decision of the inbound pass ignores the
configured done-stage-id list entirely: for every fetched task, "no
reopen needed" (`some false`) is returned exactly when the `IsTaskDone`
nil-list fallback rejects the lower-cased stage name, whatever the stage
write would do; and when the stage write succeeds the call returns
`some` of the fallback verdict. -/
theorem reopenTask_name_fallback (getTask : Int → Option OdooTask)
    (setStageOk : Bool) (tid : Int)
    (t : OdooTask) (h : getTask tid = some t) :
    (ReopenTask getTask setStageOk tid = some false ↔
      (strContains "done".toList (lowerStr t.stageName) ||
        strContains "hotovo".toList (lowerStr t.stageName) ||
        strContains "closed".toList (lowerStr t.stageName) ||
        strContains "resolved".toList (lowerStr t.stageName)) = false) ∧
    (setStageOk = true →
      ReopenTask getTask setStageOk tid =
        some (strContains "done".toList (lowerStr t.stageName) ||
          strContains "hotovo".toList (lowerStr t.stageName) ||
          strContains "closed".toList (lowerStr t.stageName) ||
          strContains "resolved".toList (lowerStr t.stageName))) := by
  have hdone : IsTaskDone t [] =
      (strContains "done".toList (lowerStr t.stageName) ||
        strContains "hotovo".toList (lowerStr t.stageName) ||
        strContains "closed".toList (lowerStr t.stageName) ||
        strContains "resolved".toList (lowerStr t.stageName)) := by
    unfold IsTaskDone
    rw [if_neg (by decide)]
  have key : ReopenTask getTask setStageOk tid =
      (if ¬ IsTaskDone t [] = true then some false
       else if setStageOk then some true else none) := by
    unfold ReopenTask
    rw [h]
  rw [key, hdone]
  cases hb : (strContains "done".toList (lowerStr t.stageName) ||
      strContains "hotovo".toList (lowerStr t.stageName) ||
      strContains "closed".toList (lowerStr t.stageName) ||
      strContains "resolved".toList (lowerStr t.stageName)) with
  | false =>
    rw [if_pos (fun hc => Bool.noConfusion hc)]
    exact ⟨iff_of_true rfl rfl, fun _ => rfl⟩
  | true =>
    rw [if_neg (fun hc => hc rfl)]
    cases setStageOk with
    | false =>
      refine ⟨iff_of_false ?_ (fun hc => Bool.noConfusion hc),
        fun hc => Bool.noConfusion hc⟩
      rw [if_neg (fun hc => Bool.noConfusion hc)]
      exact fun hc => Option.noConfusion hc
    | true =>
      refine ⟨iff_of_false ?_ (fun hc => Bool.noConfusion hc), fun _ => ?_⟩
      · rw [if_pos rfl]
        exact fun hc => Bool.noConfusion (Option.some.inj hc)
      · rw [if_pos rfl]

/-- C5 witness: the amended decision evaluated on a task in stage
`Finished` that is fetched successfully, with the stage write
succeeding. -/
theorem reopenTask_name_fallback_witness :
    (ReopenTask (fun i => if i = 5 then some reopenCexTask else none) true 5 =
        some false ↔
      (strContains "done".toList (lowerStr reopenCexTask.stageName) ||
        strContains "hotovo".toList (lowerStr reopenCexTask.stageName) ||
        strContains "closed".toList (lowerStr reopenCexTask.stageName) ||
        strContains "resolved".toList (lowerStr reopenCexTask.stageName)) =
          false) ∧
    (true = true →
      ReopenTask (fun i => if i = 5 then some reopenCexTask else none) true 5 =
        some (strContains "done".toList (lowerStr reopenCexTask.stageName) ||
          strContains "hotovo".toList (lowerStr reopenCexTask.stageName) ||
          strContains "closed".toList (lowerStr reopenCexTask.stageName) ||
          strContains "resolved".toList (lowerStr reopenCexTask.stageName))) :=
  reopenTask_name_fallback (fun i => if i = 5 then some reopenCexTask else none)
    true 5 reopenCexTask (by decide)

/-! ## The dedup ledger (`internal/state`, state.go)

The bbolt buckets are modelled as in-memory sets (a `Put` of key `id`
is an idempotent insert; a `Get ≠ nil` test is membership) plus the
single watermark scalar. -/

structure Ledger where
  processedEmails : List Str
  odooMsgSent : List Int
  lastOdooMsgTime : Int
  closedNotified : List Int
  reopenedNotified : List Int
deriving DecidableEq

/-- Bucket membership (`Get(key) != nil`). -/
def containsInt (l : List Int) (i : Int) : Bool := decide (i ∈ l)

/-- Bucket insert (`Put(key, "1")` — idempotent). -/
def insertInt (l : List Int) (i : Int) : List Int :=
  if containsInt l i then l else i :: l

def IsOdooMessageSent (st : Ledger) (id : Int) : Bool := containsInt st.odooMsgSent id

def MarkOdooMessageSent (st : Ledger) (id : Int) : Ledger :=
  { st with odooMsgSent := insertInt st.odooMsgSent id }

def GetLastOdooMessageTime (st : Ledger) : Int := st.lastOdooMsgTime

def SetLastOdooMessageTime (st : Ledger) (t : Int) : Ledger :=
  { st with lastOdooMsgTime := t }

def IsTaskClosedNotified (st : Ledger) (id : Int) : Bool :=
  containsInt st.closedNotified id

def MarkTaskClosedNotified (st : Ledger) (id : Int) : Ledger :=
  { st with closedNotified := insertInt st.closedNotified id }

/-- Modelled from the spec: the reopened-notified ledger namespace (§3,
§4.3 — a set with `has`/`mark`/`clear`); the store functions
`IsTaskReopenedNotified`/`MarkTaskReopenedNotified`/
`ClearTaskReopenedNotified`/`ClearTaskClosedNotified` are called by the
pass code and the repository's tests but their bodies are not among the
provided sources. -/
def IsTaskReopenedNotified (st : Ledger) (id : Int) : Bool :=
  containsInt st.reopenedNotified id

/-- Modelled from the spec: mark a task reopened-notified (idempotent set
insert, §4.3). -/
def MarkTaskReopenedNotified (st : Ledger) (id : Int) : Ledger :=
  { st with reopenedNotified := insertInt st.reopenedNotified id }

/-- Modelled from the spec: clear a task's reopened-notified flag (§4.3
`clear(key)` for the reopen/close pair). -/
def ClearTaskReopenedNotified (st : Ledger) (id : Int) : Ledger :=
  { st with reopenedNotified := st.reopenedNotified.filter (fun x => x != id) }

/-- Modelled from the spec: clear a task's closed-notified flag (§4.3
`clear(key)` for the reopen/close pair).  Called only by the repository's
tests — no production pass invokes it. -/
def ClearTaskClosedNotified (st : Ledger) (id : Int) : Ledger :=
  { st with closedNotified := st.closedNotified.filter (fun x => x != id) }

theorem contains_insertInt (l : List Int) (i : Int) :
    containsInt (insertInt l i) i = true := by
  unfold insertInt
  by_cases h : containsInt l i = true
  · rw [if_pos h]; exact h
  · rw [if_neg h]
    simp [containsInt]

theorem contains_insertInt_other (l : List Int) (i j : Int) (h : j ≠ i) :
    containsInt (insertInt l i) j = containsInt l j := by
  unfold insertInt
  by_cases hc : containsInt l i = true
  · rw [if_pos hc]
  · rw [if_neg hc]
    simp [containsInt, h]

theorem contains_filter_ne (l : List Int) (i : Int) :
    containsInt (l.filter (fun x => x != i)) i = false := by
  simp [containsInt, List.mem_filter]

/-! ## Completion pass (`processCompletedTasks`, main package) -/

/-- The gateway responses the completion pass inspects: `GetTask`
(`none` = RPC error), `RenderTicketClosed` success, SMTP `Send` success.
The Slack update/thread calls perform no ledger writes and are elided. -/
structure CompletionEnv where
  getTask : Int → Option OdooTask
  renderOk : Int → Bool
  sendOk : Int → Bool

/-- The loop body of `processCompletedTasks`: skip if already
closed-notified, skip if not done, skip on `GetTask` error or empty
customer email, skip on template error; send the closure email and only
on success mark closed-notified and clear reopened-notified. -/
def processCompletedTask (doneStageIDs : List Int) (env : CompletionEnv)
    (st : Ledger) (t : OdooTask) : Ledger :=
  if IsTaskClosedNotified st t.id then st
  else if ¬ IsTaskDone t doneStageIDs then st
  else
    match env.getTask t.id with
    | none => st
    | some ft =>
      if ft.customerEmail = [] then st
      else if ¬ env.renderOk t.id then st
      else if env.sendOk t.id then
        ClearTaskReopenedNotified (MarkTaskClosedNotified st t.id) t.id
      else st

/-- `processCompletedTasks`: the loop over the changed-task window. -/
def processCompletedTasks (doneStageIDs : List Int) (env : CompletionEnv)
    (st : Ledger) (tasks : List OdooTask) : Ledger :=
  tasks.foldl (processCompletedTask doneStageIDs env) st

/-- All gates before the closure email send: not yet closed-notified,
done, task fetched with a customer email, template rendered. -/
def closureSendAttempted (doneStageIDs : List Int) (env : CompletionEnv)
    (st : Ledger) (t : OdooTask) : Prop :=
  IsTaskClosedNotified st t.id = false ∧ IsTaskDone t doneStageIDs = true ∧
  (∃ ft, env.getTask t.id = some ft ∧ ft.customerEmail ≠ []) ∧
  env.renderOk t.id = true

/-- C1: for a task processed by the completion pass (not yet
closed-notified), the closed-notified flag is set and the
reopened-notified flag cleared iff the closure email send was attempted
and succeeded; otherwise — in particular whenever the send fails — the
ledger is left entirely unchanged, so the task is retried next tick. -/
theorem completedTask_flags (doneStageIDs : List Int) (env : CompletionEnv)
    (st : Ledger) (t : OdooTask) (h : IsTaskClosedNotified st t.id = false) :
    ((IsTaskClosedNotified (processCompletedTask doneStageIDs env st t) t.id = true ∧
      IsTaskReopenedNotified (processCompletedTask doneStageIDs env st t) t.id = false)
      ↔ (closureSendAttempted doneStageIDs env st t ∧ env.sendOk t.id = true)) ∧
    (¬ (closureSendAttempted doneStageIDs env st t ∧ env.sendOk t.id = true) →
      processCompletedTask doneStageIDs env st t = st) := by
  have hunchanged : ¬ (closureSendAttempted doneStageIDs env st t ∧
      env.sendOk t.id = true) → processCompletedTask doneStageIDs env st t = st := by
    intro hnot
    unfold processCompletedTask
    rw [if_neg (bool_ne_true h)]
    by_cases h2 : IsTaskDone t doneStageIDs = true
    · rw [if_neg (fun hc => hc h2)]
      cases hft : env.getTask t.id with
      | none => rfl
      | some ft =>
        show (if ft.customerEmail = [] then st
              else if ¬ env.renderOk t.id = true then st
              else if env.sendOk t.id = true then
                ClearTaskReopenedNotified (MarkTaskClosedNotified st t.id) t.id
              else st) = st
        by_cases h3 : ft.customerEmail = []
        · rw [if_pos h3]
        · rw [if_neg h3]
          by_cases h4 : env.renderOk t.id = true
          · rw [if_neg (fun hc => hc h4)]
            by_cases h5 : env.sendOk t.id = true
            · exact absurd ⟨⟨h, h2, ⟨ft, hft, h3⟩, h4⟩, h5⟩ hnot
            · rw [if_neg h5]
          · rw [if_pos h4]
    · rw [if_pos h2]
  constructor
  · constructor
    · intro ⟨hcl, _⟩
      by_cases hsend : closureSendAttempted doneStageIDs env st t ∧
          env.sendOk t.id = true
      · exact hsend
      · exfalso
        rw [hunchanged hsend, h] at hcl
        exact Bool.noConfusion hcl
    · intro ⟨⟨_, h2, ⟨ft, hft, h3⟩, h4⟩, h5⟩
      have hres : processCompletedTask doneStageIDs env st t =
          ClearTaskReopenedNotified (MarkTaskClosedNotified st t.id) t.id := by
        unfold processCompletedTask
        rw [if_neg (bool_ne_true h), if_neg (fun hc => hc h2), hft]
        show (if ft.customerEmail = [] then st
              else if ¬ env.renderOk t.id = true then st
              else if env.sendOk t.id = true then
                ClearTaskReopenedNotified (MarkTaskClosedNotified st t.id) t.id
              else st) = _
        rw [if_neg h3, if_neg (fun hc => hc h4), if_pos h5]
      rw [hres]
      constructor
      · show containsInt (insertInt st.closedNotified t.id) t.id = true
        exact contains_insertInt ..
      · show containsInt (st.reopenedNotified.filter (fun x => x != t.id)) t.id = false
        exact contains_filter_ne ..
  · exact hunchanged

/-- Concrete data for the completion-pass witness. -/
def c1Task : OdooTask :=
  { id := 7, name := "T".toList, stageID := 9, stageName := "Done".toList,
    customerEmail := "c@x".toList, customerName := [], assignedUserName := [] }

def emptyLedger : Ledger :=
  { processedEmails := [], odooMsgSent := [], lastOdooMsgTime := 0,
    closedNotified := [], reopenedNotified := [] }

def c1Env : CompletionEnv :=
  { getTask := fun i => if i = 7 then some c1Task else none,
    renderOk := fun _ => true, sendOk := fun _ => true }

/-- C1 witness: the flag characterisation evaluated on a concrete done
task with a successful send. -/
theorem completedTask_flags_witness :
    ((IsTaskClosedNotified (processCompletedTask [9] c1Env emptyLedger c1Task)
        c1Task.id = true ∧
      IsTaskReopenedNotified (processCompletedTask [9] c1Env emptyLedger c1Task)
        c1Task.id = false)
      ↔ (closureSendAttempted [9] c1Env emptyLedger c1Task ∧
         c1Env.sendOk c1Task.id = true)) ∧
    (¬ (closureSendAttempted [9] c1Env emptyLedger c1Task ∧
        c1Env.sendOk c1Task.id = true) →
      processCompletedTask [9] c1Env emptyLedger c1Task = emptyLedger) :=
  completedTask_flags [9] c1Env emptyLedger c1Task (by decide)

/-! ## Reopened-notification pass (`processReopenedTasks`, main package) -/

/-- The loop body of `processReopenedTasks`: skip tasks that are done or
already reopened-notified, skip tasks not closed-notified, skip on
`GetTask` error or missing customer email; otherwise (after the Slack
update/thread note, which perform no ledger writes) mark
reopened-notified.  Note: the production code performs no
`ClearTaskClosedNotified` here. -/
def processReopenedTask (doneStageIDs : List Int) (getTask : Int → Option OdooTask)
    (st : Ledger) (t : OdooTask) : Ledger :=
  if IsTaskDone t doneStageIDs || IsTaskReopenedNotified st t.id then st
  else if ¬ IsTaskClosedNotified st t.id then st
  else
    match getTask t.id with
    | none => st
    | some ft =>
      if ft.customerEmail = [] then st
      else MarkTaskReopenedNotified st t.id

/-- `processReopenedTasks`: the loop over the changed-task window. -/
def processReopenedTasks (doneStageIDs : List Int) (getTask : Int → Option OdooTask)
    (st : Ledger) (tasks : List OdooTask) : Ledger :=
  tasks.foldl (processReopenedTask doneStageIDs getTask) st

/-- A reopened task (moved out of the done stage) with its closure
already notified. -/
def c3Task : OdooTask :=
  { id := 7, name := "T".toList, stageID := 1, stageName := "In Progress".toList,
    customerEmail := "c@x".toList, customerName := [], assignedUserName := [] }

/-- The same task completed again later. -/
def c3TaskDone : OdooTask :=
  { id := 7, name := "T".toList, stageID := 9, stageName := "Done".toList,
    customerEmail := "c@x".toList, customerName := [], assignedUserName := [] }

def c3Ledger : Ledger :=
  { processedEmails := [], odooMsgSent := [], lastOdooMsgTime := 0,
    closedNotified := [7], reopenedNotified := [] }

def c3GetTask : Int → Option OdooTask := fun i => if i = 7 then some c3Task else none

def c3CompletionEnv : CompletionEnv :=
  { getTask := fun i => if i = 7 then some c3TaskDone else none,
    renderOk := fun _ => true, sendOk := fun _ => true }

/-- C3: evaluation at the failing input.  Task 7 was closed-notified and
has been reopened (stage 1, not done under the configured list [9]).  The
reopened-notification pass marks it reopened-notified but leaves the
closed-notified flag set — `ClearTaskClosedNotified` is never called by
any production pass — so when the task is completed again the completion
pass skips it (the ledger is unchanged and no closure email is sent),
contrary to the cycle the repository's own `TestTaskReopenCloseCycle`
describes. -/
theorem reopenedTask_keeps_closed_flag :
    IsTaskDone c3Task [9] = false ∧
    IsTaskClosedNotified c3Ledger 7 = true ∧
    IsTaskReopenedNotified (processReopenedTask [9] c3GetTask c3Ledger c3Task) 7
      = true ∧
    IsTaskClosedNotified (processReopenedTask [9] c3GetTask c3Ledger c3Task) 7
      = true ∧
    processCompletedTask [9] c3CompletionEnv
        (processReopenedTask [9] c3GetTask c3Ledger c3Task) c3TaskDone =
      processReopenedTask [9] c3GetTask c3Ledger c3Task := by decide

/-! ## Outbound agent-comment pass (`processOdooPublicMessages`, main package) -/

/-- `odoo.TaskMessage`: the fields the pass inspects (timestamps as
integers). -/
structure OdooMsg where
  id : Int
  taskID : Int
  date : Int
  byOperator : Bool
  isComment : Bool
  isPublicPfx : Bool
deriving DecidableEq

/-- Gateway responses for the pass: the message listing (`none` = RPC
error), `GetTask`, template success, whether the task has attachments
(selects the send path) and SMTP send success per message. -/
structure PubEnv where
  msgs : Option (List OdooMsg)
  getTask : Int → Option OdooTask
  renderOk : Int → Bool
  hasAtts : Int → Bool
  sendOk : Int → Bool

/-- The ledger effect of one message of the loop: skip if already sent,
skip operator/comment/public filter failures, skip on `GetTask` error or
empty customer email or template error; send (with or without
attachments) and only on success mark the message sent. -/
def pubMsgLedger (env : PubEnv) (st : Ledger) (mm : OdooMsg) : Ledger :=
  if IsOdooMessageSent st mm.id then st
  else if ¬ (mm.byOperator && mm.isComment && mm.isPublicPfx) = true then st
  else
    match env.getTask mm.taskID with
    | none => st
    | some ft =>
      if ft.customerEmail = [] then st
      else if ¬ env.renderOk mm.id = true then st
      else if env.hasAtts mm.taskID then
        if env.sendOk mm.id then MarkOdooMessageSent st mm.id else st
      else
        if env.sendOk mm.id then MarkOdooMessageSent st mm.id else st

/-- One iteration of the loop: the running maximum timestamp is updated
before any of the skip conditions (`if mm.Date.After(maxSeen)` comes
first), then the ledger effect is applied. -/
def pubMsgStep (env : PubEnv) (acc : Int × Ledger) (mm : OdooMsg) : Int × Ledger :=
  (if mm.date > acc.1 then mm.date else acc.1, pubMsgLedger env acc.2 mm)

/-- `processOdooPublicMessages`: on a listing error the ledger is
untouched; otherwise the loop runs from the persisted watermark and the
watermark is advanced to the maximum seen timestamp when it grew. -/
def processOdooPublicMessages (env : PubEnv) (st : Ledger) : Ledger :=
  match env.msgs with
  | none => st
  | some msgs =>
    let r := msgs.foldl (pubMsgStep env) (GetLastOdooMessageTime st, st)
    if r.1 > GetLastOdooMessageTime st then SetLastOdooMessageTime r.2 r.1 else r.2

theorem maxInt_ite (a b : Int) : (if b > a then b else a) = max a b := by
  by_cases h : a < b
  · rw [if_pos h, max_eq_right h.le]
  · rw [if_neg h, max_eq_left (le_of_not_lt h)]

theorem pubFold_fst (env : PubEnv) (msgs : List OdooMsg) :
    ∀ (ts : Int) (st : Ledger),
      (msgs.foldl (pubMsgStep env) (ts, st)).1 =
        msgs.foldl (fun a m => max a m.date) ts := by
  induction msgs with
  | nil => intro ts st; rfl
  | cons m msgs ih =>
    intro ts st
    show (msgs.foldl (pubMsgStep env) (pubMsgStep env (ts, st) m)).1 = _
    rw [show pubMsgStep env (ts, st) m =
      (if m.date > ts then m.date else ts, pubMsgLedger env st m) from rfl]
    rw [ih, maxInt_ite]
    rfl

theorem pubMsgLedger_last (env : PubEnv) (st : Ledger) (mm : OdooMsg) :
    (pubMsgLedger env st mm).lastOdooMsgTime = st.lastOdooMsgTime := by
  unfold pubMsgLedger MarkOdooMessageSent
  repeat' split
  all_goals rfl

theorem pubFold_last (env : PubEnv) (msgs : List OdooMsg) :
    ∀ (ts : Int) (st : Ledger),
      (msgs.foldl (pubMsgStep env) (ts, st)).2.lastOdooMsgTime =
        st.lastOdooMsgTime := by
  induction msgs with
  | nil => intro ts st; rfl
  | cons m msgs ih =>
    intro ts st
    show (msgs.foldl (pubMsgStep env)
      (if m.date > ts then m.date else ts, pubMsgLedger env st m)).2.lastOdooMsgTime = _
    rw [ih, pubMsgLedger_last]

theorem foldl_max_ge (msgs : List OdooMsg) : ∀ ts : Int,
    ts ≤ msgs.foldl (fun a m => max a m.date) ts := by
  induction msgs with
  | nil => intro ts; exact le_refl ts
  | cons m msgs ih =>
    intro ts
    exact le_trans (le_max_left ts m.date) (ih (max ts m.date))

theorem mark_sent_cases {st : Ledger} {i j : Int}
    (h : IsOdooMessageSent (MarkOdooMessageSent st j) i = true) :
    IsOdooMessageSent st i = true ∨ i = j := by
  by_cases hij : i = j
  · exact Or.inr hij
  · left
    unfold IsOdooMessageSent at h ⊢
    unfold MarkOdooMessageSent at h
    rw [contains_insertInt_other _ _ _ hij] at h
    exact h

theorem pubMsgLedger_sent (env : PubEnv) (st : Ledger) (mm : OdooMsg) (i : Int)
    (h : IsOdooMessageSent (pubMsgLedger env st mm) i = true) :
    IsOdooMessageSent st i = true ∨ env.sendOk i = true := by
  unfold pubMsgLedger at h
  by_cases h1 : IsOdooMessageSent st mm.id = true
  · rw [if_pos h1] at h; exact Or.inl h
  · rw [if_neg h1] at h
    by_cases h2 : ¬ (mm.byOperator && mm.isComment && mm.isPublicPfx) = true
    · rw [if_pos h2] at h; exact Or.inl h
    · rw [if_neg h2] at h
      cases hft : env.getTask mm.taskID with
      | none => rw [hft] at h; exact Or.inl h
      | some ft =>
        rw [hft] at h
        have h' : (if ft.customerEmail = [] then st
            else if ¬ env.renderOk mm.id = true then st
            else if env.hasAtts mm.taskID then
              if env.sendOk mm.id then MarkOdooMessageSent st mm.id else st
            else
              if env.sendOk mm.id then MarkOdooMessageSent st mm.id else st) = _ := rfl
        rw [show (match some ft with
          | none => st
          | some ft =>
            if ft.customerEmail = [] then st
            else if ¬ env.renderOk mm.id = true then st
            else if env.hasAtts mm.taskID then
              if env.sendOk mm.id then MarkOdooMessageSent st mm.id else st
            else
              if env.sendOk mm.id then MarkOdooMessageSent st mm.id else st) =
          (if ft.customerEmail = [] then st
            else if ¬ env.renderOk mm.id = true then st
            else if env.hasAtts mm.taskID then
              if env.sendOk mm.id then MarkOdooMessageSent st mm.id else st
            else
              if env.sendOk mm.id then MarkOdooMessageSent st mm.id else st)
          from rfl] at h
        by_cases h3 : ft.customerEmail = []
        · rw [if_pos h3] at h; exact Or.inl h
        · rw [if_neg h3] at h
          by_cases h4 : ¬ env.renderOk mm.id = true
          · rw [if_pos h4] at h; exact Or.inl h
          · rw [if_neg h4] at h
            by_cases h5 : env.hasAtts mm.taskID = true
            · rw [if_pos h5] at h
              by_cases h6 : env.sendOk mm.id = true
              · rw [if_pos h6] at h
                rcases mark_sent_cases h with h7 | h7
                · exact Or.inl h7
                · exact Or.inr (h7 ▸ h6)
              · rw [if_neg h6] at h; exact Or.inl h
            · rw [if_neg h5] at h
              by_cases h6 : env.sendOk mm.id = true
              · rw [if_pos h6] at h
                rcases mark_sent_cases h with h7 | h7
                · exact Or.inl h7
                · exact Or.inr (h7 ▸ h6)
              · rw [if_neg h6] at h; exact Or.inl h

theorem pubFold_sent (env : PubEnv) (msgs : List OdooMsg) (i : Int) :
    ∀ (ts : Int) (st : Ledger),
      IsOdooMessageSent (msgs.foldl (pubMsgStep env) (ts, st)).2 i = true →
      IsOdooMessageSent st i = true ∨ env.sendOk i = true := by
  induction msgs with
  | nil => intro ts st h; exact Or.inl h
  | cons m msgs ih =>
    intro ts st h
    have h' := ih (if m.date > ts then m.date else ts) (pubMsgLedger env st m) h
    rcases h' with h2 | h2
    · exact pubMsgLedger_sent env st m i h2
    · exact Or.inr h2

/-- C4: after the outbound agent-comment pass, the persisted watermark
equals `max` of its previous value and every comment timestamp observed,
regardless of per-message filtering or send failures; the watermark never
decreases; and a comment id becomes marked sent only when its send
succeeded. -/
theorem pubMessages_watermark (env : PubEnv) (st : Ledger) (msgs : List OdooMsg)
    (i : Int) (h : env.msgs = some msgs) :
    GetLastOdooMessageTime (processOdooPublicMessages env st) =
      msgs.foldl (fun a m => max a m.date) (GetLastOdooMessageTime st) ∧
    GetLastOdooMessageTime st ≤
      GetLastOdooMessageTime (processOdooPublicMessages env st) ∧
    (IsOdooMessageSent (processOdooPublicMessages env st) i = true →
      IsOdooMessageSent st i = true ∨ env.sendOk i = true) := by
  have hres : processOdooPublicMessages env st =
      (let r := msgs.foldl (pubMsgStep env) (GetLastOdooMessageTime st, st)
       if r.1 > GetLastOdooMessageTime st then SetLastOdooMessageTime r.2 r.1
       else r.2) := by
    unfold processOdooPublicMessages
    rw [h]
  have hfst := pubFold_fst env msgs (GetLastOdooMessageTime st) st
  have hlast := pubFold_last env msgs (GetLastOdooMessageTime st) st
  have hge := foldl_max_ge msgs (GetLastOdooMessageTime st)
  have heq : GetLastOdooMessageTime (processOdooPublicMessages env st) =
      msgs.foldl (fun a m => max a m.date) (GetLastOdooMessageTime st) := by
    rw [hres]
    show GetLastOdooMessageTime
      (if (msgs.foldl (pubMsgStep env) (GetLastOdooMessageTime st, st)).1 >
          GetLastOdooMessageTime st
       then SetLastOdooMessageTime
          (msgs.foldl (pubMsgStep env) (GetLastOdooMessageTime st, st)).2
          (msgs.foldl (pubMsgStep env) (GetLastOdooMessageTime st, st)).1
       else (msgs.foldl (pubMsgStep env) (GetLastOdooMessageTime st, st)).2) = _
    by_cases hgt : (msgs.foldl (pubMsgStep env) (GetLastOdooMessageTime st, st)).1 >
        GetLastOdooMessageTime st
    · rw [if_pos hgt]
      show (msgs.foldl (pubMsgStep env) (GetLastOdooMessageTime st, st)).1 = _
      exact hfst
    · rw [if_neg hgt]
      show (msgs.foldl (pubMsgStep env) (GetLastOdooMessageTime st, st)).2.lastOdooMsgTime = _
      rw [hlast]
      rw [hfst] at hgt
      exact le_antisymm hge (le_of_not_lt hgt)
  refine ⟨heq, ?_, ?_⟩
  · rw [heq]; exact hge
  · intro hsent
    rw [hres] at hsent
    by_cases hgt : (msgs.foldl (pubMsgStep env) (GetLastOdooMessageTime st, st)).1 >
        GetLastOdooMessageTime st
    · rw [if_pos hgt] at hsent
      exact pubFold_sent env msgs i (GetLastOdooMessageTime st) st hsent
    · rw [if_neg hgt] at hsent
      exact pubFold_sent env msgs i (GetLastOdooMessageTime st) st hsent

/-- Concrete data for the watermark witness: two messages, the second
one's send fails. -/
def c4Msgs : List OdooMsg :=
  [ { id := 1, taskID := 7, date := 10, byOperator := true, isComment := true,
      isPublicPfx := true },
    { id := 2, taskID := 7, date := 20, byOperator := true, isComment := true,
      isPublicPfx := true } ]

def c4Env : PubEnv :=
  { msgs := some c4Msgs,
    getTask := fun i => if i = 7 then some c1Task else none,
    renderOk := fun _ => true, hasAtts := fun _ => false,
    sendOk := fun i => decide (i = 1) }

/-- C4 witness: the watermark characterisation evaluated on the concrete
pass (watermark advances to 20 although message 2's send failed; message
2 is not marked sent). -/
theorem pubMessages_watermark_witness :
    GetLastOdooMessageTime (processOdooPublicMessages c4Env emptyLedger) =
      c4Msgs.foldl (fun a m => max a m.date) (GetLastOdooMessageTime emptyLedger) ∧
    GetLastOdooMessageTime emptyLedger ≤
      GetLastOdooMessageTime (processOdooPublicMessages c4Env emptyLedger) ∧
    (IsOdooMessageSent (processOdooPublicMessages c4Env emptyLedger) 2 = true →
      IsOdooMessageSent emptyLedger 2 = true ∨ c4Env.sendOk 2 = true) :=
  pubMessages_watermark c4Env emptyLedger c4Msgs 2 rfl

/-! ## SLA evaluation (`checkTaskSLA`, sla package) -/

/-- `state.SLAState` (state.go): per-task SLA record. -/
structure SLAState where
  taskID : Int
  createdAt : Int
  startedAt : Option Int
  completedAt : Option Int
  startSLABreach : Bool
  endSLABreach : Bool
deriving DecidableEq

/-- Success/failure of the collaborator calls one `checkTaskSLA` run can
make: the state read, the two per-breach label comments and Slack
notifications, and the final state store. -/
structure SLAEnv where
  getOk : Bool
  labelStartOk : Bool
  notifyStartOk : Bool
  labelEndOk : Bool
  notifyEndOk : Bool
  storeOk : Bool
deriving DecidableEq

/-- `time.Hour` in nanoseconds. -/
def hourNs : Int := 3600000000000

/-- Tail of `checkTaskSLA`: store the state when anything changed (`u`),
on store failure or no change the persisted record is untouched. -/
def slaStore (env : SLAEnv) (persisted : Option SLAState) (s : SLAState)
    (u : Bool) : Option SLAState :=
  if u then (if env.storeOk then some s else persisted) else persisted

/-- Resolution-breach paragraph of `checkTaskSLA`: fires only while
`completedAt` is unset and the flag is clear; a label or notification
error aborts the run before anything is stored. -/
def slaEnd (env : SLAEnv) (persisted : Option SLAState) (now resH : Int)
    (s : SLAState) (u : Bool) : Option SLAState :=
  if ¬ s.endSLABreach = true ∧ s.completedAt = none ∧
      now > s.createdAt + resH * hourNs then
    if ¬ env.labelEndOk = true then persisted
    else if ¬ env.notifyEndOk = true then persisted
    else slaStore env persisted { s with endSLABreach := true } true
  else slaStore env persisted s u

/-- First-observation paragraph of `checkTaskSLA`: set `completedAt` when
the task is done and it is unset, then set `startedAt` when the task has
left the new stage and it is unset; the Bool tracks `updated`. -/
def slaObserve (now : Int) (isCompleted isStarted : Bool) (s : SLAState) :
    SLAState × Bool :=
  let r1 : SLAState × Bool :=
    if isCompleted = true ∧ s.completedAt = none then
      ({ s with completedAt := some now }, true)
    else (s, false)
  if isStarted = true ∧ r1.1.startedAt = none then
    ({ r1.1 with startedAt := some now }, true)
  else r1

/-- Start-breach paragraph of `checkTaskSLA`, followed by the
resolution-breach paragraph: fires only while `startedAt` is unset and
the flag is clear; a label or notification error aborts the run before
anything is stored. -/
def slaStart (env : SLAEnv) (persisted : Option SLAState) (now startH resH : Int)
    (s : SLAState) (u : Bool) : Option SLAState :=
  if ¬ s.startSLABreach = true ∧ s.startedAt = none ∧
      now > s.createdAt + startH * hourNs then
    if ¬ env.labelStartOk = true then persisted
    else if ¬ env.notifyStartOk = true then persisted
    else slaEnd env persisted now resH { s with startSLABreach := true } true
  else slaEnd env persisted now resH s u

/-- `checkTaskSLA` (sla package): read the persisted state (creating a
fresh one at `now` when absent), set `completedAt` then `startedAt` on
their first observation, then run the start-breach and resolution-breach
checks in order; errors return without storing, otherwise the updated
state is stored iff something changed. -/
def checkTaskSLA (env : SLAEnv) (persisted : Option SLAState) (tid now : Int)
    (isCompleted isStarted : Bool) (startH resH : Int) : Option SLAState :=
  if ¬ env.getOk = true then persisted
  else
    let s0 := match persisted with
      | some s => s
      | none => { taskID := tid, createdAt := now, startedAt := none,
                  completedAt := none, startSLABreach := false,
                  endSLABreach := false }
    let r := slaObserve now isCompleted isStarted s0
    slaStart env persisted now startH resH r.1 r.2

/-- Field-wise monotonicity: breach flags are one-way, timestamps are
first-write-wins. -/
def SLAStateLe (s t : SLAState) : Prop :=
  (s.startSLABreach = true → t.startSLABreach = true) ∧
  (s.endSLABreach = true → t.endSLABreach = true) ∧
  (∀ x, s.startedAt = some x → t.startedAt = some x) ∧
  (∀ y, s.completedAt = some y → t.completedAt = some y)

/-- Monotonicity lifted to the persisted record (`none` = absent). -/
def SLALe (p q : Option SLAState) : Prop :=
  match p with
  | none => True
  | some s =>
    match q with
    | none => False
    | some t => SLAStateLe s t

theorem SLAStateLe_refl (s : SLAState) : SLAStateLe s s :=
  ⟨fun h => h, fun h => h, fun _ h => h, fun _ h => h⟩

theorem SLAStateLe_trans {s t u : SLAState} (h1 : SLAStateLe s t)
    (h2 : SLAStateLe t u) : SLAStateLe s u :=
  ⟨fun h => h2.1 (h1.1 h), fun h => h2.2.1 (h1.2.1 h),
   fun x h => h2.2.2.1 x (h1.2.2.1 x h), fun y h => h2.2.2.2 y (h1.2.2.2 y h)⟩

theorem SLALe_refl (p : Option SLAState) : SLALe p p := by
  cases p with
  | none => trivial
  | some s => exact SLAStateLe_refl s

theorem SLALe_trans {p q r : Option SLAState} (h1 : SLALe p q) (h2 : SLALe q r) :
    SLALe p r := by
  cases p with
  | none => trivial
  | some s =>
    cases q with
    | none => exact absurd h1 (fun h => h)
    | some t =>
      cases r with
      | none => exact absurd h2 (fun h => h)
      | some u => exact SLAStateLe_trans h1 h2

theorem le_set_completed {s : SLAState} {v : Int} (h : s.completedAt = none) :
    SLAStateLe s { s with completedAt := some v } :=
  ⟨fun h1 => h1, fun h1 => h1, fun _ h1 => h1,
   fun _ h1 => absurd (h ▸ h1) (fun hc => Option.noConfusion hc)⟩

theorem le_set_started {s : SLAState} {v : Int} (h : s.startedAt = none) :
    SLAStateLe s { s with startedAt := some v } :=
  ⟨fun h1 => h1, fun h1 => h1,
   fun _ h1 => absurd (h ▸ h1) (fun hc => Option.noConfusion hc),
   fun _ h1 => h1⟩

theorem le_set_startBreach {s : SLAState} :
    SLAStateLe s { s with startSLABreach := true } :=
  ⟨fun _ => rfl, fun h1 => h1, fun _ h1 => h1, fun _ h1 => h1⟩

theorem le_set_endBreach {s : SLAState} :
    SLAStateLe s { s with endSLABreach := true } :=
  ⟨fun h1 => h1, fun _ => rfl, fun _ h1 => h1, fun _ h1 => h1⟩

theorem slaStore_le {env : SLAEnv} {s s' : SLAState} {u : Bool}
    (h : SLAStateLe s s') : SLALe (some s) (slaStore env (some s) s' u) := by
  unfold slaStore
  by_cases hu : u = true
  · rw [if_pos hu]
    by_cases hst : env.storeOk = true
    · rw [if_pos hst]; exact h
    · rw [if_neg hst]; exact SLAStateLe_refl s
  · rw [if_neg hu]; exact SLAStateLe_refl s

theorem slaEnd_le {env : SLAEnv} {s s' : SLAState} {u : Bool} {now resH : Int}
    (h : SLAStateLe s s') : SLALe (some s) (slaEnd env (some s) now resH s' u) := by
  unfold slaEnd
  by_cases hc : ¬ s'.endSLABreach = true ∧ s'.completedAt = none ∧
      now > s'.createdAt + resH * hourNs
  · rw [if_pos hc]
    by_cases h1 : ¬ env.labelEndOk = true
    · rw [if_pos h1]; exact SLAStateLe_refl s
    · rw [if_neg h1]
      by_cases h2 : ¬ env.notifyEndOk = true
      · rw [if_pos h2]; exact SLAStateLe_refl s
      · rw [if_neg h2]
        exact slaStore_le (SLAStateLe_trans h le_set_endBreach)
  · rw [if_neg hc]
    exact slaStore_le h

theorem slaStart_le {env : SLAEnv} {s s' : SLAState} {u : Bool}
    {now startH resH : Int} (h : SLAStateLe s s') :
    SLALe (some s) (slaStart env (some s) now startH resH s' u) := by
  unfold slaStart
  by_cases hc : ¬ s'.startSLABreach = true ∧ s'.startedAt = none ∧
      now > s'.createdAt + startH * hourNs
  · rw [if_pos hc]
    by_cases h1 : ¬ env.labelStartOk = true
    · rw [if_pos h1]; exact SLAStateLe_refl s
    · rw [if_neg h1]
      by_cases h2 : ¬ env.notifyStartOk = true
      · rw [if_pos h2]; exact SLAStateLe_refl s
      · rw [if_neg h2]
        exact slaEnd_le (SLAStateLe_trans h le_set_startBreach)
  · rw [if_neg hc]
    exact slaEnd_le h

theorem slaObserve_le (now : Int) (isCompleted isStarted : Bool) (s : SLAState) :
    SLAStateLe s (slaObserve now isCompleted isStarted s).1 := by
  unfold slaObserve
  by_cases hc1 : isCompleted = true ∧ s.completedAt = none
  · rw [if_pos hc1]
    by_cases hc2 : isStarted = true ∧
        ({ s with completedAt := some now } : SLAState).startedAt = none
    · rw [if_pos hc2]
      exact SLAStateLe_trans (le_set_completed hc1.2) (le_set_started hc2.2)
    · rw [if_neg hc2]
      exact le_set_completed hc1.2
  · rw [if_neg hc1]
    by_cases hc2 : isStarted = true ∧ s.startedAt = none
    · rw [if_pos hc2]
      exact le_set_started hc2.2
    · rw [if_neg hc2]
      exact SLAStateLe_refl s

/-- C7 (single pass): one `checkTaskSLA` evaluation never clears a breach
flag and never overwrites a set `startedAt`/`completedAt` in the persisted
record. -/
theorem checkTaskSLA_mono (env : SLAEnv) (persisted : Option SLAState)
    (tid now : Int) (isCompleted isStarted : Bool) (startH resH : Int) :
    SLALe persisted (checkTaskSLA env persisted tid now isCompleted isStarted
      startH resH) := by
  cases persisted with
  | none =>
    show SLALe none _
    trivial
  | some s =>
    unfold checkTaskSLA
    by_cases hg : ¬ env.getOk = true
    · rw [if_pos hg]; exact SLALe_refl _
    · rw [if_neg hg]
      show SLALe (some s) (slaStart env (some s) now startH resH
        (slaObserve now isCompleted isStarted s).1
        (slaObserve now isCompleted isStarted s).2)
      exact slaStart_le (slaObserve_le now isCompleted isStarted s)

/-- One evaluation pass over a task: the inputs `checkTaskSLA` is called
with on one tick. -/
structure SLAPassIn where
  env : SLAEnv
  tid : Int
  now : Int
  isCompleted : Bool
  isStarted : Bool
  startH : Int
  resH : Int

/-- A sequence of evaluation passes over the same task's persisted SLA
record. -/
def runSLAPasses (ps : List SLAPassIn) (p : Option SLAState) : Option SLAState :=
  ps.foldl (fun acc i =>
    checkTaskSLA i.env acc i.tid i.now i.isCompleted i.isStarted i.startH i.resH) p

/-- C7: across any sequence of evaluation passes, once `StartSLABreach` or
`EndSLABreach` is set in the persisted record it is never cleared, and
`startedAt`/`completedAt` are never overwritten once set. -/
theorem runSLAPasses_mono (ps : List SLAPassIn) (p : Option SLAState) :
    SLALe p (runSLAPasses ps p) := by
  induction ps generalizing p with
  | nil => exact SLALe_refl p
  | cons i ps ih =>
    exact SLALe_trans
      (checkTaskSLA_mono i.env p i.tid i.now i.isCompleted i.isStarted i.startH
        i.resH)
      (ih _)

end Bridge
